import Mathlib

/-!
Verification of the atria JVM against its specification.

Shallow embedding of the relevant Rust sources:
  * `src/jvm/src/thread/monitor.rs` and `src/jvm/src/monitor.rs` (monitors)
  * `src/jvm/src/loader.rs` (class-file version check)
  * `src/jvm/src/thread.rs` (interpreter loop, idiv/irem, initialize)
  * `src/jvm/src/stack.rs` (frames and local variables)
  * `src/jvm/src/heap.rs` (heap items and field stores)
  * `src/parser/src/class/constant_pool.rs` (constant-pool decoding)
  * `src/common/src/lib.rs` (class-identifier parsing)

Rust `HashMap`s are modelled as association lists, machine integers as
`Nat`/`Int`, `anyhow::Result` as `Except String`, and Rust panics
(as opposed to `bail!` error returns) as a separate outcome constructor.
Floating point values are carried as opaque bit patterns; no claim
computes with them.
-/

set_option linter.unusedVariables false

deriving instance DecidableEq for Except

namespace Atria

/-- Association-list lookup, modelling `HashMap::get`. -/
def lookupA {α β : Type} [DecidableEq α] : List (α × β) → α → Option β
  | [], _ => none
  | (k, v) :: rest, a => if k = a then some v else lookupA rest a

/-- Association-list update-or-insert, modelling `HashMap::insert` and
in-place mutation through `HashMap::get_mut`. -/
def setA {α β : Type} [DecidableEq α] : List (α × β) → α → β → List (α × β)
  | [], a, b => [(a, b)]
  | (k, v) :: rest, a, b => if k = a then (a, b) :: rest else (k, v) :: setA rest a b

/-- Association-list removal, modelling `HashMap::remove`. -/
def removeA {α β : Type} [DecidableEq α] : List (α × β) → α → List (α × β)
  | [], _ => []
  | (k, v) :: rest, a => if k = a then rest else (k, v) :: removeA rest a

/-- Association-list update at a key leaves lookups of that key at the new
value. -/
theorem lookupA_setA_self {α β : Type} [DecidableEq α] (l : List (α × β)) (a : α) (b : β) :
    lookupA (setA l a b) a = some b := by
  induction l with
  | nil => simp [setA, lookupA]
  | cons hd tl ih =>
    obtain ⟨k, v⟩ := hd
    by_cases h : k = a
    · simp [setA, lookupA, h]
    · simp [setA, lookupA, h, ih]

/-- Association-list update at a key leaves lookups of other keys unchanged. -/
theorem lookupA_setA_ne {α β : Type} [DecidableEq α] (l : List (α × β)) (a b' : α) (b : β)
    (h : b' ≠ a) : lookupA (setA l a b) b' = lookupA l b' := by
  have hne : ¬a = b' := fun hh => h hh.symm
  induction l with
  | nil => simp [setA, lookupA, hne]
  | cons hd tl ih =>
    obtain ⟨k, v⟩ := hd
    by_cases hh : k = a
    · subst hh
      simp [setA, lookupA, hne]
    · simp only [setA, if_neg hh, lookupA]
      by_cases hb : k = b'
      · simp [hb]
      · simp [hb, ih]

/-! ## Monitors

`Monitor` and `Monitors` from `src/jvm/src/thread/monitor.rs`; the older
variant of `exit_object_monitor` from `src/jvm/src/monitor.rs` is embedded
alongside it.  `HeapId` is a `u64` (modelled `Nat`), `ThreadId` an `i64`
(modelled `Int`). -/

/-- Monitor record: `entry_count: u64`, `owner: Option<ThreadId>`. -/
structure Monitor where
  entry_count : Nat
  owner : Option Int
deriving DecidableEq

/-- Mirrors `Monitor::new`: entry count 1, owned by the entering thread. -/
def Monitor.new (thread_id : Int) : Monitor :=
  { entry_count := 1, owner := some thread_id }

/-- Mirrors `Monitor::owned_by`. -/
def Monitor.owned_by (m : Monitor) (thread_id : Int) : Bool :=
  match m.owner with
  | some owner => owner = thread_id
  | none => false

namespace ThreadMonitors

/-- Monitor table from `src/jvm/src/thread/monitor.rs`: object monitors
keyed by heap id, class monitors keyed by class identifier (a string here). -/
structure Monitors where
  object_monitors : List (Nat × Monitor)
  class_monitors : List (String × Monitor)
deriving DecidableEq

/-- Mirrors `Monitors::enter_object_monitor` (thread/monitor.rs lines 37-52):
returns the `bool` result together with the updated table. -/
def enter_object_monitor (ms : Monitors) (heap_id : Nat) (thread_id : Int) :
    Bool × Monitors :=
  match lookupA ms.object_monitors heap_id with
  | some monitor =>
    if monitor.owned_by thread_id then
      let bumped : Monitor := { monitor with entry_count := monitor.entry_count + 1 }
      (true, { ms with object_monitors := setA ms.object_monitors heap_id bumped })
    else
      (false, ms)
  | none =>
    (true, { ms with object_monitors := setA ms.object_monitors heap_id (Monitor.new thread_id) })

/-- Mirrors `Monitors::exit_object_monitor` (thread/monitor.rs lines 76-94).
The owner's exit decrements the count, clears the owner at zero, and then
unconditionally removes the entry from the table (the `remove` call sits
outside the zero test in the source). -/
def exit_object_monitor (ms : Monitors) (heap_id : Nat) (thread_id : Int) :
    Except String Monitors :=
  match lookupA ms.object_monitors heap_id with
  | some monitor =>
    if monitor.owned_by thread_id then
      let m1 : Monitor := { monitor with entry_count := monitor.entry_count - 1 }
      let m2 : Monitor := if m1.entry_count = 0 then { m1 with owner := none } else m1
      Except.ok { ms with object_monitors := removeA (setA ms.object_monitors heap_id m2) heap_id }
    else
      Except.error "TODO: IllegalMonitorAccessException"
  | none => Except.error "no monitor found"

/-- Mirrors `Monitors::exit_class_monitor` (thread/monitor.rs lines 96-118),
identical logic keyed by class identifier. -/
def exit_class_monitor (ms : Monitors) (class_identifier : String) (thread_id : Int) :
    Except String Monitors :=
  match lookupA ms.class_monitors class_identifier with
  | some monitor =>
    if monitor.owned_by thread_id then
      let m1 : Monitor := { monitor with entry_count := monitor.entry_count - 1 }
      let m2 : Monitor := if m1.entry_count = 0 then { m1 with owner := none } else m1
      Except.ok
        { ms with class_monitors := removeA (setA ms.class_monitors class_identifier m2) class_identifier }
    else
      Except.error "TODO: IllegalMonitorAccessException"
  | none => Except.error "no monitor found"

/-- Empty monitor table (`Monitors::default`). -/
def empty : Monitors := { object_monitors := [], class_monitors := [] }

end ThreadMonitors

namespace JvmMonitors

/-- Monitor table from `src/jvm/src/monitor.rs` (object monitors only). -/
structure Monitors where
  object_monitors : List (Nat × Monitor)
deriving DecidableEq

/-- Mirrors `Monitors::enter_object_monitor` (monitor.rs lines 37-52). -/
def enter_object_monitor (ms : Monitors) (heap_id : Nat) (thread_id : Int) :
    Bool × Monitors :=
  match lookupA ms.object_monitors heap_id with
  | some monitor =>
    if monitor.owned_by thread_id then
      let bumped : Monitor := { monitor with entry_count := monitor.entry_count + 1 }
      (true, { object_monitors := setA ms.object_monitors heap_id bumped })
    else
      (false, ms)
  | none =>
    (true, { object_monitors := setA ms.object_monitors heap_id (Monitor.new thread_id) })

/-- Mirrors `Monitors::exit_object_monitor` (monitor.rs lines 54-70): the
owner's exit decrements, clears the owner at zero, but never removes the
entry from the table. -/
def exit_object_monitor (ms : Monitors) (heap_id : Nat) (thread_id : Int) :
    Except String Monitors :=
  match lookupA ms.object_monitors heap_id with
  | some monitor =>
    if monitor.owned_by thread_id then
      let m1 : Monitor := { monitor with entry_count := monitor.entry_count - 1 }
      let m2 : Monitor := if m1.entry_count = 0 then { m1 with owner := none } else m1
      Except.ok { object_monitors := setA ms.object_monitors heap_id m2 }
    else
      Except.error "TODO: IllegalMonitorAccessException"
  | none => Except.error "no monitor found"

/-- Empty monitor table (`Monitors::default`). -/
def empty : Monitors := { object_monitors := [] }

end JvmMonitors

/-! ## Class-loader version check (`src/jvm/src/loader.rs`) -/

namespace Loader

/-- Mirrors `BootstrapClassLoader::check_version` (loader.rs lines 61-71):
the source rejects only when `major_version != 61 && minor_version != 0`. -/
def check_version (major_version minor_version : Nat) : Except String Unit :=
  if major_version ≠ 61 ∧ minor_version ≠ 0 then
    Except.error "unsupported class file version (should throw UnsupportedClassVersionError)"
  else
    Except.ok ()

end Loader

/-! ## Value model (`src/common/src/lib.rs`, `src/jvm/src/stack.rs`) -/

/-- Class identifier: a package / name pair (`common::ClassIdentifier`),
with strings modelled as character lists. -/
structure ClassIdentifier where
  package : List Char
  name : List Char
deriving DecidableEq

/-- Reference values from `common::ReferenceValue`. -/
inductive ReferenceValue
  | HeapItem (id : Nat)
  | Class (identifier : ClassIdentifier)
  | Null
deriving DecidableEq

/-- Field values (`common::FieldValue`); floats carried as bit patterns. -/
inductive FieldValue
  | Reference (r : ReferenceValue)
  | Integer (v : Int)
  | Long (v : Int)
  | Float (bits : Nat)
  | Double (bits : Nat)
deriving DecidableEq

/-- Operand-stack / local-variable values (`stack.rs FrameValue`). -/
inductive FrameValue
  | Reserved
  | Reference (r : ReferenceValue)
  | Int (v : Int)
  | Long (v : Int)
  | Float (bits : Nat)
  | Double (bits : Nat)
deriving DecidableEq

/-! ## Interpreter arithmetic (`src/jvm/src/thread.rs` idiv and irem) -/

namespace Interp

/-- Outcome of one interpreter operation.  `err` is the `anyhow::bail!`
error-return path that aborts the thread with a stack trace; `panic` is a
Rust panic raised by the host operation itself, outside the error path. -/
inductive StepResult (α : Type)
  | ok (a : α)
  | err (msg : String)
  | panic (msg : String)
deriving DecidableEq

/-- Rust `i32` division `value1 / value2`: the host panics on a zero divisor
and on the overflowing case `i32::MIN / -1`; otherwise it truncates toward
zero. -/
def rustDivI32 (value1 value2 : Int) : StepResult Int :=
  if value2 = 0 then StepResult.panic "attempt to divide by zero"
  else if value1 = -(2 ^ 31) ∧ value2 = -1 then StepResult.panic "attempt to divide with overflow"
  else StepResult.ok (Int.tdiv value1 value2)

/-- Mirrors `Frame::pop_operand` followed by `FrameValue::int`. -/
def popInt (operands : List FrameValue) : StepResult (Int × List FrameValue) :=
  match operands with
  | [] => StepResult.err "no operands in operand stack"
  | FrameValue.Int v :: rest => StepResult.ok (v, rest)
  | _ :: _ => StepResult.err "frame value is not a int"

/-- Mirrors `JvmThread::idiv` (thread.rs lines 733-738): pops the divisor and
the dividend and pushes `value1 / value2` with no zero check at all — the
host division is always performed. -/
def idiv (operands : List FrameValue) : StepResult (List FrameValue) :=
  match popInt operands with
  | StepResult.ok (value2, rest1) =>
    match popInt rest1 with
    | StepResult.ok (value1, rest2) =>
      match rustDivI32 value1 value2 with
      | StepResult.ok q => StepResult.ok (FrameValue.Int q :: rest2)
      | StepResult.err m => StepResult.err m
      | StepResult.panic m => StepResult.panic m
    | StepResult.err m => StepResult.err m
    | StepResult.panic m => StepResult.panic m
  | StepResult.err m => StepResult.err m
  | StepResult.panic m => StepResult.panic m

/-- Mirrors `JvmThread::irem` (thread.rs lines 740-749): pops the divisor and
the dividend, bails with the ArithmeticException placeholder when the divisor
is zero, and otherwise pushes `value1 - (value1 / value2) * value2`. -/
def irem (operands : List FrameValue) : StepResult (List FrameValue) :=
  match popInt operands with
  | StepResult.ok (value2, rest1) =>
    match popInt rest1 with
    | StepResult.ok (value1, rest2) =>
      if value2 = 0 then StepResult.err "TODO: ArithmeticException"
      else
        match rustDivI32 value1 value2 with
        | StepResult.ok q => StepResult.ok (FrameValue.Int (value1 - q * value2) :: rest2)
        | StepResult.err m => StepResult.err m
        | StepResult.panic m => StepResult.panic m
    | StepResult.err m => StepResult.err m
    | StepResult.panic m => StepResult.panic m
  | StepResult.err m => StepResult.err m
  | StepResult.panic m => StepResult.panic m

/-- Instruction subset relevant to the dispatch-loop claim.  Offsets are the
signed 16-bit branch immediates.  Byte lengths follow `Instruction::length`
(conditional branches and goto are 3 bytes, `iconst`/`isub` 1 byte; for the
branch variants absent from the instruction.rs generation in src the length 3
is the one the spec fixes for the conditional-branch family). -/
inductive Instruction
  | IfNull (offset : Int)
  | IfNe (offset : Int)
  | IfNonNull (offset : Int)
  | Ifeq (offset : Int)
  | Ifle (offset : Int)
  | Iflt (offset : Int)
  | Ifgt (offset : Int)
  | IfIcmpge (offset : Int)
  | IfIcmpgt (offset : Int)
  | IfIcmple (offset : Int)
  | IfIcmplt (offset : Int)
  | Ifge (offset : Int)
  | IfIcmpeq (offset : Int)
  | IfIcmpne (offset : Int)
  | IfAcmpne (offset : Int)
  | IfAcmpeq (offset : Int)
  | Goto (offset : Int)
  | Iconst (v : Int)
  | Isub
deriving DecidableEq

/-- Byte length of each instruction (`Instruction::length`). -/
def Instruction.length : Instruction → Nat
  | .Iconst _ => 1
  | .Isub => 1
  | _ => 3

/-- Interpreter view of the current frame for the dispatch-loop claim. -/
structure ExecFrame where
  pc : Nat
  operands : List FrameValue
deriving DecidableEq

/-- Mirrors `Frame::offset_pc`: a negative offset below zero is an error,
otherwise the program counter moves by the signed offset. -/
def offset_pc (f : ExecFrame) (offset : Int) : Except String ExecFrame :=
  if offset < 0 then
    if offset.natAbs > f.pc then Except.error "pc cannot be negative"
    else Except.ok { f with pc := f.pc - offset.natAbs }
  else Except.ok { f with pc := f.pc + offset.toNat }

/-- Pops one operand (`Frame::pop_operand`). -/
def popOperand (f : ExecFrame) : Except String (FrameValue × ExecFrame) :=
  match f.operands with
  | [] => Except.error "no operands in operand stack"
  | v :: rest => Except.ok (v, { f with operands := rest })

/-- Pops one operand and coerces it to an int (`FrameValue::int`). -/
def popOperandInt (f : ExecFrame) : Except String (Int × ExecFrame) :=
  match popOperand f with
  | Except.ok (FrameValue.Int v, f2) => Except.ok (v, f2)
  | Except.ok _ => Except.error "frame value is not a int"
  | Except.error e => Except.error e

/-- Pops one operand and coerces it to a reference (`FrameValue::reference`). -/
def popOperandRef (f : ExecFrame) : Except String (ReferenceValue × ExecFrame) :=
  match popOperand f with
  | Except.ok (FrameValue.Reference r, f2) => Except.ok (r, f2)
  | Except.ok _ => Except.error "frame value is not a reference"
  | Except.error e => Except.error e

/-- Shared shape of the one-operand conditional branches (`if_lt`, `if_gt`,
...): pop an int, branch by `offset` when the condition holds, otherwise
advance by 3 inside the handler itself. -/
def branchInt (cond : Int → Bool) (offset : Int) (f : ExecFrame) :
    Except String ExecFrame :=
  match popOperandInt f with
  | Except.ok (v, f2) => if cond v then offset_pc f2 offset else offset_pc f2 3
  | Except.error e => Except.error e

/-- Shared shape of the two-operand integer conditional branches
(`if_icmpeq`, ...): pop value2 then value1. -/
def branchIntCmp (cond : Int → Int → Bool) (offset : Int) (f : ExecFrame) :
    Except String ExecFrame :=
  match popOperandInt f with
  | Except.ok (value2, f2) =>
    match popOperandInt f2 with
    | Except.ok (value1, f3) =>
      if cond value1 value2 then offset_pc f3 offset else offset_pc f3 3
    | Except.error e => Except.error e
  | Except.error e => Except.error e

/-- Shared shape of the reference conditional branches (`if_acmpeq` at
thread.rs lines 1379-1388 and `if_acmpne`). -/
def branchRefCmp (cond : ReferenceValue → ReferenceValue → Bool) (offset : Int)
    (f : ExecFrame) : Except String ExecFrame :=
  match popOperandRef f with
  | Except.ok (operand2, f2) =>
    match popOperandRef f2 with
    | Except.ok (operand1, f3) =>
      if cond operand1 operand2 then offset_pc f3 offset else offset_pc f3 3
    | Except.error e => Except.error e
  | Except.error e => Except.error e

/-- Shared shape of the null-test branches (`if_null`, `if_non_null`). -/
def branchRef (cond : ReferenceValue → Bool) (offset : Int) (f : ExecFrame) :
    Except String ExecFrame :=
  match popOperandRef f with
  | Except.ok (r, f2) => if cond r then offset_pc f2 offset else offset_pc f2 3
  | Except.error e => Except.error e

/-- Semantic effect of one instruction, mirroring the handler methods called
from `JvmThread::execute` / `Jvm::execute` (each branch handler sets the PC
itself; non-branch handlers leave the PC alone). -/
def execInstr : Instruction → ExecFrame → Except String ExecFrame
  | .IfNull offset, f => branchRef (fun r => r = ReferenceValue.Null) offset f
  | .IfNonNull offset, f => branchRef (fun r => r ≠ ReferenceValue.Null) offset f
  | .IfNe offset, f => branchInt (fun v => v ≠ 0) offset f
  | .Ifeq offset, f => branchInt (fun v => v = 0) offset f
  | .Ifle offset, f => branchInt (fun v => v ≤ 0) offset f
  | .Iflt offset, f => branchInt (fun v => v < 0) offset f
  | .Ifgt offset, f => branchInt (fun v => v > 0) offset f
  | .Ifge offset, f => branchInt (fun v => v ≥ 0) offset f
  | .IfIcmpge offset, f => branchIntCmp (fun v1 v2 => v1 ≥ v2) offset f
  | .IfIcmpgt offset, f => branchIntCmp (fun v1 v2 => v1 > v2) offset f
  | .IfIcmple offset, f => branchIntCmp (fun v1 v2 => v1 ≤ v2) offset f
  | .IfIcmplt offset, f => branchIntCmp (fun v1 v2 => v1 < v2) offset f
  | .IfIcmpeq offset, f => branchIntCmp (fun v1 v2 => v1 = v2) offset f
  | .IfIcmpne offset, f => branchIntCmp (fun v1 v2 => v1 ≠ v2) offset f
  | .IfAcmpne offset, f => branchRefCmp (fun o1 o2 => o1 ≠ o2) offset f
  | .IfAcmpeq offset, f => branchRefCmp (fun o1 o2 => o1 = o2) offset f
  | .Goto offset, f => offset_pc f offset
  | .Iconst v, f => Except.ok { f with operands := FrameValue.Int v :: f.operands }
  | .Isub, f =>
    match popOperandInt f with
    | Except.ok (value2, f2) =>
      match popOperandInt f2 with
      | Except.ok (value1, f3) =>
        Except.ok { f3 with operands := FrameValue.Int (value1 - value2) :: f3.operands }
      | Except.error e => Except.error e
    | Except.error e => Except.error e

/-- Post-execution PC adjustment of `JvmThread::execute` (thread.rs lines
670-691): the listed control-transfer opcodes get no further adjustment,
everything else advances by the instruction length.  The source list names
`IfAcmpne` but not `IfAcmpeq`. -/
def threadLoopAdjust (i : Instruction) (f : ExecFrame) : Except String ExecFrame :=
  match i with
  | .IfNull _ | .IfNe _ | .IfNonNull _ | .Ifeq _ | .Ifle _ | .Iflt _ | .Ifgt _
  | .IfIcmpge _ | .IfIcmpgt _ | .IfIcmple _ | .IfIcmplt _ | .Ifge _ | .IfIcmpeq _
  | .IfIcmpne _ | .IfAcmpne _ | .Goto _ => Except.ok f
  | _ => offset_pc f (Instruction.length i)

/-- Post-execution PC adjustment of `Jvm::execute` (lib.rs lines 280-288):
the exclusion list stops at `Goto` and names neither `Iflt` nor `Ifgt`. -/
def jvmLoopAdjust (i : Instruction) (f : ExecFrame) : Except String ExecFrame :=
  match i with
  | .IfNull _ | .IfNe _ | .IfNonNull _ | .Ifeq _ | .Ifle _ | .Goto _ => Except.ok f
  | _ => offset_pc f (Instruction.length i)

/-- One iteration of the `JvmThread::execute` dispatch loop for an already
decoded instruction: semantic effect, then the loop's PC adjustment. -/
def stepThread (i : Instruction) (f : ExecFrame) : Except String ExecFrame :=
  match execInstr i f with
  | Except.ok f2 => threadLoopAdjust i f2
  | Except.error e => Except.error e

/-- One iteration of the `Jvm::execute` dispatch loop for an already decoded
instruction. -/
def stepJvm (i : Instruction) (f : ExecFrame) : Except String ExecFrame :=
  match execInstr i f with
  | Except.ok f2 => jvmLoopAdjust i f2
  | Except.error e => Except.error e

end Interp

/-! ## Frames and local variables (`src/jvm/src/stack.rs`) -/

namespace StackM

/-- Mirrors Rust `Vec::insert` for an in-bounds index: shifts the elements
from `index` onwards one place to the right. -/
def insertVec {α : Type} : List α → Nat → α → List α
  | l, 0, a => a :: l
  | [], _ + 1, a => [a]
  | x :: xs, n + 1, a => x :: insertVec xs n a

/-- Mirrors `Frame::set_local_variable` (stack.rs lines 209-216): bounds
check, then `Vec::insert` — an insertion, not a replacement. -/
def Frame.set_local_variable (local_variables : List FrameValue) (index : Nat)
    (value : FrameValue) : Except String (List FrameValue) :=
  if index > local_variables.length then
    Except.error "index out of bounds of local variables"
  else
    Except.ok (insertVec local_variables index value)

/-- Mirrors `Frame::local_variable` (stack.rs lines 202-207): a plain indexed
read returning whatever value sits in the slot. -/
def Frame.local_variable (local_variables : List FrameValue) (index : Nat) :
    Except String FrameValue :=
  match local_variables.get? index with
  | some v => Except.ok v
  | none => Except.error "no local variable at index"

/-- Mirrors `Stack::set_local_variable` (stack.rs lines 77-86): category-2
values additionally write a `Reserved` marker at `index + 1`. -/
def Stack.set_local_variable (local_variables : List FrameValue) (index : Nat)
    (value : FrameValue) : Except String (List FrameValue) :=
  match value with
  | FrameValue.Long _ =>
    match Frame.set_local_variable local_variables index value with
    | Except.ok lvs2 => Frame.set_local_variable lvs2 (index + 1) FrameValue.Reserved
    | Except.error e => Except.error e
  | FrameValue.Double _ =>
    match Frame.set_local_variable local_variables index value with
    | Except.ok lvs2 => Frame.set_local_variable lvs2 (index + 1) FrameValue.Reserved
    | Except.error e => Except.error e
  | _ => Frame.set_local_variable local_variables index value

end StackM

/-! ## Heap (`src/jvm/src/heap.rs`) -/

namespace HeapM

/-- Instance field record (`heap.rs InstanceField`). -/
structure InstanceField where
  offset : Int
  value : FieldValue
deriving DecidableEq

/-- Heap object (`heap.rs Object`): class identifier plus named fields. -/
structure Object where
  class_identifier : ClassIdentifier
  fields : List (String × InstanceField)
deriving DecidableEq

/-- Primitive-array element types (`heap.rs PrimitiveArrayType`). -/
inductive PrimitiveArrayType
  | Boolean | Char | Float | Double | Byte | Short | Int | Long
deriving DecidableEq

/-- Primitive-array element values (`heap.rs PrimitiveArrayValue`);
floats carried as bit patterns. -/
inductive PrimitiveArrayValue
  | Boolean (b : Bool)
  | Char (v : Nat)
  | Float (bits : Nat)
  | Double (bits : Nat)
  | Byte (v : Nat)
  | Short (v : Nat)
  | Int (v : Int)
  | Long (v : Int)
deriving DecidableEq

/-- Heap items (`heap.rs HeapItem`). -/
inductive HeapItem
  | Object (o : HeapM.Object)
  | ReferenceArray (object_id : Nat) (cls : ClassIdentifier) (values : List ReferenceValue)
  | PrimitiveArray (typ : PrimitiveArrayType) (values : List PrimitiveArrayValue)
deriving DecidableEq

/-- Heap state (`heap.rs Heap`): next id and the id-to-item table. -/
structure Heap where
  current_id : Nat
  items : List (Nat × HeapItem)
deriving DecidableEq

/-- Mirrors `Heap::set_field` (heap.rs lines 235-250): unknown ids are an
error; on an `Object` the named field is replaced (error when absent); on any
array item the branch is `Ok(())` with no mutation at all. -/
def set_field (h : Heap) (object_id : Nat) (name : String) (value : FieldValue) :
    Except String Heap :=
  match lookupA h.items object_id with
  | none => Except.error "unknown object"
  | some (HeapItem.Object o) =>
    match lookupA o.fields name with
    | none => Except.error "field not found on object"
    | some field =>
      let o2 : Object := { o with fields := setA o.fields name { field with value := value } }
      Except.ok { h with items := setA h.items object_id (HeapItem.Object o2) }
  | some _ => Except.ok h

end HeapM

/-! ## Class initialization (`src/jvm/src/thread.rs` initialize, lines
345-409, and `src/jvm/src/class.rs` state flags, lines 78-92)

Classes are numbered by `Nat`.  A `ClassDef` abstracts the loaded class
file: its optional super class, the sequence of classes whose initialization
its `<clinit>` triggers (the `execute` of `<clinit>` bytecode is abstracted
to exactly those `initialize` calls, in order), and the static-field values
computed by `initialize_static_fields` (defaults or ConstantValue).  The
copying of `java.lang.Class` instance fields into the fresh record and the
`java.lang.System`/`initPhase1` special case mutate neither the flags nor
the table ordering and are abstracted away; `anyhow` errors are collapsed
into `Option`. -/

namespace Init

/-- Abstract view of one loaded class file (see the section comment). -/
structure ClassDef where
  superC : Option Nat
  clinitTriggers : List Nat
  staticInit : List (String × FieldValue)

/-- Class record as held in the class table (`class.rs Class`):
the two state flags plus the static-field map. -/
structure InitClass where
  being_initialized : Bool
  initialized : Bool
  statics : List (String × FieldValue)
deriving DecidableEq

/-- The shared class table (`classes: HashMap<ClassIdentifier, Class>`). -/
abbrev St : Type := List (Nat × InitClass)

/-- Guard condition of `initialize`: the table holds the class with
`initialized` or `being_initialized` set. -/
def flagged (σ : St) (i : Nat) : Bool :=
  match lookupA σ i with
  | some c => c.initialized || c.being_initialized
  | none => false

/-- The class is present with `initialized = true`. -/
def isInitialized (σ : St) (i : Nat) : Bool :=
  match lookupA σ i with
  | some c => c.initialized
  | none => false

/-- The class is mid-initialization: `being_initialized` but not yet
`initialized`. -/
def pending (σ : St) (i : Nat) : Bool :=
  match lookupA σ i with
  | some c => c.being_initialized && !c.initialized
  | none => false

/-- Key list of the class table. -/
def keys (σ : St) : List Nat := σ.map Prod.fst

/-- The class table has no duplicate keys (true of every reachable state;
`HashMap` gives it for free). -/
def goodKeys (σ : St) : Prop := (keys σ).Nodup

/-- How many entries the table holds for class `i`. -/
def countKey (σ : St) (i : Nat) : Nat := (keys σ).count i

/-- The freshly built class record: `Class::new` followed by
`Class::initializing` and `initialize_static_fields`. -/
def freshRecord (d : ClassDef) : InitClass :=
  { being_initialized := true, initialized := false, statics := d.staticInit }

/-- Dependency order of `initialize`: the super class first (when present),
then the initializations `<clinit>` triggers. -/
def depsOf (d : ClassDef) : List Nat := d.superC.toList ++ d.clinitTriggers

/-- Mirrors the tail of `initialize`: `classes.get_mut(identifier)` (an
error when absent) followed by `finished_initialization`, which sets
`initialized` and nothing else. -/
def markInit (σ : St) (i : Nat) : Option St :=
  match lookupA σ i with
  | some c => some (setA σ i { c with initialized := true })
  | none => none

mutual

/-- Mirrors `JvmThread::initialize` (thread.rs lines 345-409): return the
table unchanged when the class is `initialized` or `being_initialized`;
otherwise insert the fresh record (flags set, statics computed) and only
then initialize the super class, run `<clinit>`, and finally mark
`initialized`.  `fuel` bounds the recursion depth; `init_adequate` below
shows `n + 1` fuel always suffices for `n` classes, which is the claimed
termination. -/
def initializeClass (defs : Nat → ClassDef) : Nat → Nat → St → Option St
  | 0, _, _ => none
  | fuel + 1, id, σ =>
    if flagged σ id then some σ
    else
      match initMany defs fuel (depsOf (defs id)) (setA σ id (freshRecord (defs id))) with
      | some σ2 => markInit σ2 id
      | none => none
termination_by fuel id σ => (fuel, 0)

/-- Runs `initialize` over a dependency list in order, propagating the
evolving table (the super-class call followed by the `<clinit>`-triggered
calls). -/
def initMany (defs : Nat → ClassDef) : Nat → List Nat → St → Option St
  | _, [], σ => some σ
  | fuel, d :: rest, σ =>
    match initializeClass defs fuel d σ with
    | some σ2 => initMany defs fuel rest σ2
    | none => none
termination_by fuel ds σ => (fuel, ds.length + 1)

end

/-- Number of classes below `n` that are neither initialized nor being
initialized; the termination measure. -/
def unflagged (n : Nat) (σ : St) : Nat :=
  (List.range n).countP (fun i => !flagged σ i)

/-- Facts carried from the pre-state to the post-state of a successful
initialization: flags only ever get set, `initialized` never gets cleared,
no new mid-initialization classes appear, and key uniqueness is kept. -/
def Pres (σ σ' : St) : Prop :=
  (∀ j, flagged σ j = true → flagged σ' j = true)
  ∧ (∀ j, isInitialized σ j = true → isInitialized σ' j = true)
  ∧ (∀ j, pending σ' j = true → pending σ j = true)
  ∧ (goodKeys σ → goodKeys σ')

theorem presRefl (σ : St) : Pres σ σ :=
  ⟨fun _ h => h, fun _ h => h, fun _ h => h, fun h => h⟩

theorem presTrans {σ1 σ2 σ3 : St} (h1 : Pres σ1 σ2) (h2 : Pres σ2 σ3) : Pres σ1 σ3 :=
  ⟨fun j h => h2.1 j (h1.1 j h),
   fun j h => h2.2.1 j (h1.2.1 j h),
   fun j h => h1.2.2.1 j (h2.2.2.1 j h),
   fun h => h2.2.2.2 (h1.2.2.2 h)⟩

/-- A successful lookup puts the key in the key list. -/
theorem lookupA_some_mem {σ : St} {i : Nat} {c : InitClass}
    (h : lookupA σ i = some c) : i ∈ keys σ := by
  induction σ with
  | nil => simp [lookupA] at h
  | cons hd tl ih =>
    obtain ⟨k, v⟩ := hd
    by_cases hk : k = i
    · subst hk; simp [keys]
    · simp only [lookupA, if_neg hk] at h
      simp only [keys, List.map_cons, List.mem_cons]
      exact Or.inr (ih h)

/-- Keys of an updated table: the key list is unchanged when the key was
present and gains the key at the end otherwise. -/
theorem keys_setA (σ : St) (a : Nat) (b : InitClass) :
    keys (setA σ a b) = if a ∈ keys σ then keys σ else keys σ ++ [a] := by
  induction σ with
  | nil => simp [setA, keys]
  | cons hd tl ih =>
    obtain ⟨k, v⟩ := hd
    by_cases hk : k = a
    · subst hk
      simp [setA, keys]
    · have hka : ¬a = k := fun hh => hk hh.symm
      simp only [setA, if_neg hk]
      simp only [keys, List.map_cons] at ih ⊢
      rw [ih]
      by_cases ha : a ∈ List.map Prod.fst tl
      · simp [List.mem_cons, hka, ha]
      · simp [List.mem_cons, hka, ha]

/-- Keys of an updated table: only the updated key can be new. -/
theorem mem_keys_setA {σ : St} {a j : Nat} {b : InitClass}
    (h : j ∈ keys (setA σ a b)) : j ∈ keys σ ∨ j = a := by
  rw [keys_setA] at h
  by_cases ha : a ∈ keys σ
  · rw [if_pos ha] at h
    exact Or.inl h
  · rw [if_neg ha] at h
    rcases List.mem_append.mp h with h1 | h1
    · exact Or.inl h1
    · exact Or.inr (by simpa using h1)

/-- Updating a table keeps its keys duplicate-free. -/
theorem goodKeys_setA {σ : St} {a : Nat} {b : InitClass} (h : goodKeys σ) :
    goodKeys (setA σ a b) := by
  unfold goodKeys at h ⊢
  rw [keys_setA]
  by_cases ha : a ∈ keys σ
  · simpa [ha] using h
  · rw [if_neg ha]
    refine List.Nodup.append h (List.nodup_singleton a) ?_
    intro x hx hxa
    simp only [List.mem_singleton] at hxa
    exact ha (hxa ▸ hx)

/-- Unfolds `markInit`: the class must be present and only its
`initialized` flag is set. -/
theorem markInit_eq {σ : St} {i : Nat} {σ' : St} (h : markInit σ i = some σ') :
    ∃ c, lookupA σ i = some c ∧ σ' = setA σ i { c with initialized := true } := by
  unfold markInit at h
  cases hl : lookupA σ i with
  | none => rw [hl] at h; simp at h
  | some c =>
    rw [hl] at h
    simp only [Option.some.injEq] at h
    exact ⟨c, rfl, h.symm⟩

theorem flagged_setA_self {σ : St} {i : Nat} {c : InitClass}
    (hc : (c.initialized || c.being_initialized) = true) :
    flagged (setA σ i c) i = true := by
  simp [flagged, lookupA_setA_self, hc]

theorem flagged_setA_ne {σ : St} {i j : Nat} {c : InitClass} (h : j ≠ i) :
    flagged (setA σ i c) j = flagged σ j := by
  simp [flagged, lookupA_setA_ne σ i j c h]

theorem isInitialized_setA_ne {σ : St} {i j : Nat} {c : InitClass} (h : j ≠ i) :
    isInitialized (setA σ i c) j = isInitialized σ j := by
  simp [isInitialized, lookupA_setA_ne σ i j c h]

theorem pending_setA_ne {σ : St} {i j : Nat} {c : InitClass} (h : j ≠ i) :
    pending (setA σ i c) j = pending σ j := by
  simp [pending, lookupA_setA_ne σ i j c h]

theorem isInitialized_imp_flagged {σ : St} {i : Nat}
    (h : isInitialized σ i = true) : flagged σ i = true := by
  unfold isInitialized at h
  unfold flagged
  cases hl : lookupA σ i with
  | none => rw [hl] at h; simp at h
  | some c =>
    rw [hl] at h
    simp at h
    simp [h]

theorem pending_imp_flagged {σ : St} {i : Nat}
    (h : pending σ i = true) : flagged σ i = true := by
  unfold pending at h
  unfold flagged
  cases hl : lookupA σ i with
  | none => rw [hl] at h; simp at h
  | some c =>
    rw [hl] at h
    simp at h
    simp [h.1]

/-- Preservation: a successful `initializeClass` or `initMany` run only adds
flags, never clears `initialized`, creates no new pending classes that it
does not also finish, and keeps keys unique. -/
theorem init_preserved (defs : Nat → ClassDef) : ∀ fuel : Nat,
    (∀ id σ σ', initializeClass defs fuel id σ = some σ' → Pres σ σ')
    ∧ (∀ ds σ σ', initMany defs fuel ds σ = some σ' → Pres σ σ') := by
  intro fuel
  induction fuel with
  | zero =>
    constructor
    · intro id σ σ' h
      simp [initializeClass] at h
    · intro ds σ σ' h
      cases ds with
      | nil =>
        simp only [initMany, Option.some.injEq] at h
        exact h ▸ presRefl σ
      | cons d rest => simp [initMany, initializeClass] at h
  | succ fuel ih =>
    have hinit : ∀ id σ σ', initializeClass defs (fuel + 1) id σ = some σ' → Pres σ σ' := by
      intro id σ σ' h
      by_cases hf : flagged σ id = true
      · simp only [initializeClass, hf, if_true, Option.some.injEq] at h
        exact h ▸ presRefl σ
      · have hf' : flagged σ id = false := by simpa using hf
        simp only [initializeClass, hf', Bool.false_eq_true, if_false] at h
        cases hm : initMany defs fuel (depsOf (defs id)) (setA σ id (freshRecord (defs id))) with
        | none => rw [hm] at h; simp at h
        | some σ2 =>
          rw [hm] at h
          obtain ⟨c2, hc2, hσ2⟩ := markInit_eq h
          have hp12 := ih.2 _ _ _ hm
          subst hσ2
          refine ⟨?_, ?_, ?_, ?_⟩
          · intro j hj
            by_cases hji : j = id
            · subst hji; rw [hj] at hf'; exact absurd hf' (by simp)
            · rw [flagged_setA_ne hji]
              exact hp12.1 j (by rw [flagged_setA_ne hji]; exact hj)
          · intro j hj
            by_cases hji : j = id
            · subst hji
              exact absurd (isInitialized_imp_flagged hj) (by simp [hf'])
            · rw [isInitialized_setA_ne hji]
              exact hp12.2.1 j (by rw [isInitialized_setA_ne hji]; exact hj)
          · intro j hj
            by_cases hji : j = id
            · subst hji
              rw [pending] at hj
              rw [lookupA_setA_self] at hj
              simp at hj
            · rw [pending_setA_ne hji] at hj
              have := hp12.2.2.1 j hj
              rwa [pending_setA_ne hji] at this
          · intro hg
            exact goodKeys_setA (hp12.2.2.2 (goodKeys_setA hg))
    have hmany : ∀ ds σ σ', initMany defs (fuel + 1) ds σ = some σ' → Pres σ σ' := by
      intro ds
      induction ds with
      | nil =>
        intro σ σ' h
        simp only [initMany, Option.some.injEq] at h
        exact h ▸ presRefl σ
      | cons d rest ihl =>
        intro σ σ' h
        simp only [initMany] at h
        cases h1 : initializeClass defs (fuel + 1) d σ with
        | none => rw [h1] at h; simp at h
        | some σmid =>
          rw [h1] at h
          exact presTrans (hinit d σ σmid h1) (ihl σmid σ' h)
    exact ⟨hinit, hmany⟩

/-- Counting a weaker predicate over the same list counts at least as much. -/
theorem countP_le_of_imp {p q : Nat → Bool} :
    ∀ l : List Nat, (∀ a ∈ l, p a = true → q a = true) → l.countP p ≤ l.countP q := by
  intro l
  induction l with
  | nil => intro _; simp
  | cons x xs ih =>
    intro h
    have hx := h x (by simp)
    have ihh := ih fun a ha hp => h a (by simp [ha]) hp
    simp only [List.countP_cons]
    cases hpx : p x
    · cases hqx : q x <;> simp <;> omega
    · rw [hx hpx]
      simp
      omega

/-- Counting a strictly weaker predicate: a witness satisfying only the
weaker one makes the count strictly larger. -/
theorem countP_lt_of_witness {p q : Nat → Bool} :
    ∀ l : List Nat, (∀ a ∈ l, p a = true → q a = true) →
      ∀ a, a ∈ l → q a = true → p a = false → l.countP p < l.countP q := by
  intro l
  induction l with
  | nil => intro _ a ha; cases ha
  | cons x xs ih =>
    intro h a ha hqa hpa
    simp only [List.countP_cons]
    rcases List.mem_cons.mp ha with rfl | hmem
    · have hle := countP_le_of_imp xs fun b hb hp => h b (by simp [hb]) hp
      simp [hpa, hqa]
      omega
    · have hx := h x (by simp)
      have hlt := ih (fun b hb hp => h b (by simp [hb]) hp) a hmem hqa hpa
      cases hpx : p x
      · cases hqx : q x <;> simp <;> omega
      · rw [hx hpx]
        simp
        omega

theorem flagged_empty (i : Nat) : flagged ([] : St) i = false := rfl

theorem unflagged_empty (n : Nat) : unflagged n ([] : St) = n := by
  unfold unflagged
  have h : ∀ a ∈ List.range n, (!flagged ([] : St) a) = true := fun a _ => rfl
  rw [List.countP_eq_length.mpr h, List.length_range]

/-- The termination measure never grows along a flag-monotone step. -/
theorem unflagged_le_of_mono {n : Nat} {σ σ' : St}
    (h : ∀ j, flagged σ j = true → flagged σ' j = true) :
    unflagged n σ' ≤ unflagged n σ := by
  refine countP_le_of_imp (List.range n) ?_
  intro a _ hpa
  cases hfa : flagged σ a
  · simp
  · rw [h a hfa] at hpa
    simp at hpa

/-- Inserting a fresh flagged record strictly shrinks the measure. -/
theorem unflagged_lt_insert {n : Nat} {σ : St} {id : Nat} (hid : id < n)
    (hf : flagged σ id = false) {c : InitClass}
    (hc : (c.initialized || c.being_initialized) = true) :
    unflagged n (setA σ id c) < unflagged n σ := by
  refine countP_lt_of_witness (List.range n) ?_ id (List.mem_range.mpr hid) ?_ ?_
  · intro a _ hpa
    by_cases hai : a = id
    · subst hai
      rw [flagged_setA_self hc] at hpa
      simp at hpa
    · rw [flagged_setA_ne hai] at hpa
      exact hpa
  · simp [hf]
  · simp [flagged_setA_self hc]

theorem flagged_lookup {σ : St} {i : Nat} (h : flagged σ i = true) :
    ∃ c, lookupA σ i = some c := by
  unfold flagged at h
  cases hl : lookupA σ i with
  | none => rw [hl] at h; simp at h
  | some c => exact ⟨c, rfl⟩

/-- Fuel adequacy: with more fuel than there are unflagged classes, neither
`initializeClass` nor `initMany` can run out — this is the termination of
`initialize` on every input whose dependencies stay below `n`. -/
theorem init_adequate (defs : Nat → ClassDef) (n : Nat)
    (hw : ∀ i, i < n → ∀ j ∈ depsOf (defs i), j < n) : ∀ fuel : Nat,
    (∀ id σ, id < n → unflagged n σ < fuel →
      (initializeClass defs fuel id σ).isSome = true)
    ∧ (∀ ds σ, (∀ d ∈ ds, d < n) → unflagged n σ < fuel →
      (initMany defs fuel ds σ).isSome = true) := by
  intro fuel
  induction fuel with
  | zero =>
    constructor
    · intro id σ _ hu; omega
    · intro ds σ _ hu; omega
  | succ fuel ih =>
    have hinit : ∀ id σ, id < n → unflagged n σ < fuel + 1 →
        (initializeClass defs (fuel + 1) id σ).isSome = true := by
      intro id σ hid hu
      by_cases hf : flagged σ id = true
      · simp [initializeClass, hf]
      · have hf' : flagged σ id = false := by simpa using hf
        have hlt : unflagged n (setA σ id (freshRecord (defs id))) < unflagged n σ :=
          unflagged_lt_insert hid hf' (by simp [freshRecord])
        have hm := ih.2 (depsOf (defs id)) (setA σ id (freshRecord (defs id)))
          (hw id hid) (by omega)
        cases hmm : initMany defs fuel (depsOf (defs id)) (setA σ id (freshRecord (defs id))) with
        | none => rw [hmm] at hm; simp at hm
        | some σ2 =>
          have hfl1 : flagged (setA σ id (freshRecord (defs id))) id = true :=
            flagged_setA_self (by simp [freshRecord])
          have hfl2 : flagged σ2 id = true :=
            ((init_preserved defs fuel).2 _ _ _ hmm).1 id hfl1
          obtain ⟨c, hc⟩ := flagged_lookup hfl2
          simp [initializeClass, hf', hmm, markInit, hc]
    have hmany : ∀ ds σ, (∀ d ∈ ds, d < n) → unflagged n σ < fuel + 1 →
        (initMany defs (fuel + 1) ds σ).isSome = true := by
      intro ds
      induction ds with
      | nil => intro σ _ _; simp [initMany]
      | cons d rest ihl =>
        intro σ hds hu
        have h1 := hinit d σ (hds d (by simp)) hu
        cases h1' : initializeClass defs (fuel + 1) d σ with
        | none => rw [h1'] at h1; simp at h1
        | some σ2 =>
          have hpres := (init_preserved defs (fuel + 1)).1 _ _ _ h1'
          have hu2 : unflagged n σ2 ≤ unflagged n σ := unflagged_le_of_mono hpres.1
          have htail := ihl σ2 (fun e he => hds e (by simp [he])) (by omega)
          simp [initMany, h1', htail]
    exact ⟨hinit, hmany⟩

/-- A class that is not mid-initialization when `initialize` is called on it
successfully ends up `initialized`. -/
theorem initialized_after {defs : Nat → ClassDef} {fuel id : Nat} {σ σ' : St}
    (h : initializeClass defs fuel id σ = some σ') (hp : pending σ id = false) :
    isInitialized σ' id = true := by
  cases fuel with
  | zero => simp [initializeClass] at h
  | succ fuel =>
    by_cases hf : flagged σ id = true
    · simp only [initializeClass, hf, if_true, Option.some.injEq] at h
      subst h
      unfold flagged at hf
      unfold pending at hp
      unfold isInitialized
      cases hl : lookupA σ id with
      | none => rw [hl] at hf; simp at hf
      | some c =>
        rw [hl] at hf hp
        cases hb : c.being_initialized
        · simp [hb] at hf
          simp [hf]
        · simp [hb] at hp
          simp [hp]
    · have hf' : flagged σ id = false := by simpa using hf
      simp only [initializeClass, hf', Bool.false_eq_true, if_false] at h
      cases hm : initMany defs fuel (depsOf (defs id)) (setA σ id (freshRecord (defs id))) with
      | none => rw [hm] at h; simp at h
      | some σ2 =>
        rw [hm] at h
        obtain ⟨c2, hc2, hσ2⟩ := markInit_eq h
        subst hσ2
        unfold isInitialized
        rw [lookupA_setA_self]

theorem countKey_eq_one {σ : St} (hg : goodKeys σ) {i : Nat} {c : InitClass}
    (h : lookupA σ i = some c) : countKey σ i = 1 :=
  List.count_eq_one_of_mem hg (lookupA_some_mem h)

end Init

/-! ## Constant pool (`src/parser/src/class/constant_pool.rs`) -/

namespace Pool

/-- Method-handle reference kinds (`constant_pool.rs ReferenceKind`). -/
inductive ReferenceKind
  | GetField | GetStatic | PutField | PutStatic | InvokeVirtual
  | InvokeStatic | InvokeSpecial | NewInvokeSpecial | InvokeInterface
deriving DecidableEq

/-- Mirrors `ReferenceKind::new`. -/
def ReferenceKind.new (value : Nat) : Except String ReferenceKind :=
  match value with
  | 1 => Except.ok ReferenceKind.GetField
  | 2 => Except.ok ReferenceKind.GetStatic
  | 3 => Except.ok ReferenceKind.PutField
  | 4 => Except.ok ReferenceKind.PutStatic
  | 5 => Except.ok ReferenceKind.InvokeVirtual
  | 6 => Except.ok ReferenceKind.InvokeStatic
  | 7 => Except.ok ReferenceKind.InvokeSpecial
  | 8 => Except.ok ReferenceKind.NewInvokeSpecial
  | 9 => Except.ok ReferenceKind.InvokeInterface
  | _ => Except.error "invalid reference kind"

/-- Constant-pool entries (`constant_pool.rs CpInfo`).  The source has no
double variant at all; float payloads are kept as their 4-byte big-endian
bit pattern and utf8 payloads as raw byte lists. -/
inductive CpInfo
  | Reserved
  | Utf8 (content : List Nat)
  | Integer (v : Nat)
  | Float (bits : Nat)
  | Long (v : Nat)
  | Class (name_index : Nat)
  | String (string_index : Nat)
  | FieldRef (class_index name_and_type_index : Nat)
  | MethodRef (class_index name_and_type_index : Nat)
  | InterfaceMethodRef (class_index name_and_type_index : Nat)
  | NameAndType (name_index descriptor_index : Nat)
  | MethodHandle (reference_kind : ReferenceKind) (reference_index : Nat)
  | MethodType (descriptor_index : Nat)
  | InvokeDynamic (bootstrap_method_attr_index name_and_type_index : Nat)
deriving DecidableEq

/-- Reads one byte (`util::u1`). -/
def u1 (bytes : List Nat) : Except String (Nat × List Nat) :=
  match bytes with
  | [] => Except.error "failed to fill whole buffer"
  | b :: rest => Except.ok (b, rest)

/-- Reads `n` bytes as a big-endian natural number (`util::u2`, `u4` and the
8-byte long reader). -/
def beBytes (n : Nat) (acc : Nat) (bytes : List Nat) : Except String (Nat × List Nat) :=
  match n with
  | 0 => Except.ok (acc, bytes)
  | m + 1 =>
    match bytes with
    | [] => Except.error "failed to fill whole buffer"
    | b :: rest => beBytes m (acc * 256 + b) rest

/-- Reads `n` raw bytes (`util::utf8` payload). -/
def readN (n : Nat) (bytes : List Nat) : Except String (List Nat × List Nat) :=
  match n with
  | 0 => Except.ok ([], bytes)
  | m + 1 =>
    match bytes with
    | [] => Except.error "failed to fill whole buffer"
    | b :: rest =>
      match readN m rest with
      | Except.ok (taken, remaining) => Except.ok (b :: taken, remaining)
      | Except.error e => Except.error e

/-- Parse-result type; names the string type outside the `CpInfo` scope so
that the `CpInfo.String` constructor cannot shadow it. -/
abbrev PRes (α : Type) : Type := Except String α

/-- Mirrors `CpInfo::new` (constant_pool.rs lines 166-212): one tag byte then
the tag's operands.  There is no case for the double tag (6); it falls into
the catch-all `invalid constant pool info tag`. -/
def CpInfo.new (bytes : List Nat) : PRes (CpInfo × List Nat) :=
  match u1 bytes with
  | Except.error e => Except.error e
  | Except.ok (tag, r0) =>
    match tag with
    | 1 =>
      match beBytes 2 0 r0 with
      | Except.error e => Except.error e
      | Except.ok (length, r1) =>
        match readN length r1 with
        | Except.error e => Except.error e
        | Except.ok (content, r2) => Except.ok (CpInfo.Utf8 content, r2)
    | 3 =>
      match beBytes 4 0 r0 with
      | Except.error e => Except.error e
      | Except.ok (v, r1) => Except.ok (CpInfo.Integer v, r1)
    | 4 =>
      match beBytes 4 0 r0 with
      | Except.error e => Except.error e
      | Except.ok (bits, r1) => Except.ok (CpInfo.Float bits, r1)
    | 5 =>
      match beBytes 8 0 r0 with
      | Except.error e => Except.error e
      | Except.ok (v, r1) => Except.ok (CpInfo.Long v, r1)
    | 7 =>
      match beBytes 2 0 r0 with
      | Except.error e => Except.error e
      | Except.ok (idx, r1) => Except.ok (CpInfo.Class idx, r1)
    | 8 =>
      match beBytes 2 0 r0 with
      | Except.error e => Except.error e
      | Except.ok (idx, r1) => Except.ok (CpInfo.String idx, r1)
    | 9 =>
      match beBytes 2 0 r0 with
      | Except.error e => Except.error e
      | Except.ok (ci, r1) =>
        match beBytes 2 0 r1 with
        | Except.error e => Except.error e
        | Except.ok (nti, r2) => Except.ok (CpInfo.FieldRef ci nti, r2)
    | 10 =>
      match beBytes 2 0 r0 with
      | Except.error e => Except.error e
      | Except.ok (ci, r1) =>
        match beBytes 2 0 r1 with
        | Except.error e => Except.error e
        | Except.ok (nti, r2) => Except.ok (CpInfo.MethodRef ci nti, r2)
    | 11 =>
      match beBytes 2 0 r0 with
      | Except.error e => Except.error e
      | Except.ok (ci, r1) =>
        match beBytes 2 0 r1 with
        | Except.error e => Except.error e
        | Except.ok (nti, r2) => Except.ok (CpInfo.InterfaceMethodRef ci nti, r2)
    | 12 =>
      match beBytes 2 0 r0 with
      | Except.error e => Except.error e
      | Except.ok (ni, r1) =>
        match beBytes 2 0 r1 with
        | Except.error e => Except.error e
        | Except.ok (di, r2) => Except.ok (CpInfo.NameAndType ni di, r2)
    | 15 =>
      match u1 r0 with
      | Except.error e => Except.error e
      | Except.ok (kind, r1) =>
        match ReferenceKind.new kind with
        | Except.error e => Except.error e
        | Except.ok rk =>
          match beBytes 2 0 r1 with
          | Except.error e => Except.error e
          | Except.ok (ri, r2) => Except.ok (CpInfo.MethodHandle rk ri, r2)
    | 16 =>
      match beBytes 2 0 r0 with
      | Except.error e => Except.error e
      | Except.ok (di, r1) => Except.ok (CpInfo.MethodType di, r1)
    | 18 =>
      match beBytes 2 0 r0 with
      | Except.error e => Except.error e
      | Except.ok (bi, r1) =>
        match beBytes 2 0 r1 with
        | Except.error e => Except.error e
        | Except.ok (nti, r2) => Except.ok (CpInfo.InvokeDynamic bi nti, r2)
    | _ => Except.error "invalid constant pool info tag"

/-- Decode loop of `ConstantPool::new` (constant_pool.rs lines 39-67): while
`i` has not reached `count`, parse one entry and append it; a long entry gets
a trailing `Reserved` filler and advances `i` by 2.  The `fuel` parameter
makes the recursion structural; every run in this file starts with enough
fuel, so the out-of-fuel error never occurs. -/
def cpLoop : Nat → Nat → Nat → List Nat → List CpInfo → Except String (List CpInfo)
  | 0, _, _, _, _ => Except.error "out of fuel"
  | fuel + 1, i, count, bytes, infos =>
    if i = count then Except.ok infos
    else
      match CpInfo.new bytes with
      | Except.error e => Except.error e
      | Except.ok (cp_info, rest) =>
        match cp_info with
        | CpInfo.Long v => cpLoop fuel (i + 2) count rest (infos ++ [CpInfo.Long v, CpInfo.Reserved])
        | info => cpLoop fuel (i + 1) count rest (infos ++ [info])

/-- Mirrors `ConstantPool::new`: the u16 `count` field is decremented (with
u16 wrap-around) and the table starts with the reserved entry at index 0. -/
def ConstantPool.new (bytes : List Nat) (count : Nat) : Except String (List CpInfo) :=
  let countM1 := if count = 0 then 65535 else count - 1
  cpLoop (countM1 + bytes.length + 1) 0 countM1 bytes [CpInfo.Reserved]

/-- Whatever the decode loop appends, the accumulator it started from stays a
prefix of the result. -/
theorem cpLoop_prefix (fuel : Nat) :
    ∀ (i count : Nat) (bytes : List Nat) (infos res : List CpInfo),
      cpLoop fuel i count bytes infos = Except.ok res → infos <+: res := by
  induction fuel with
  | zero => intro i count bytes infos res h; simp [cpLoop] at h
  | succ fuel ih =>
    intro i count bytes infos res h
    by_cases hi : i = count
    · simp [cpLoop, hi] at h
      exact h ▸ List.prefix_refl _
    · simp only [cpLoop, if_neg hi] at h
      cases hnew : CpInfo.new bytes with
      | error e => rw [hnew] at h; exact absurd h (by simp)
      | ok pr =>
        rw [hnew] at h
        obtain ⟨info, rest⟩ := pr
        cases info with
        | Long v =>
          have := ih (i + 2) count rest (infos ++ [CpInfo.Long v, CpInfo.Reserved]) res h
          exact (List.prefix_append infos _).trans (by simpa using this)
        | Reserved =>
          have := ih (i + 1) count rest (infos ++ [CpInfo.Reserved]) res h
          exact (List.prefix_append infos _).trans (by simpa using this)
        | Utf8 c =>
          have := ih (i + 1) count rest (infos ++ [CpInfo.Utf8 c]) res h
          exact (List.prefix_append infos _).trans (by simpa using this)
        | Integer v =>
          have := ih (i + 1) count rest (infos ++ [CpInfo.Integer v]) res h
          exact (List.prefix_append infos _).trans (by simpa using this)
        | Float v =>
          have := ih (i + 1) count rest (infos ++ [CpInfo.Float v]) res h
          exact (List.prefix_append infos _).trans (by simpa using this)
        | Class v =>
          have := ih (i + 1) count rest (infos ++ [CpInfo.Class v]) res h
          exact (List.prefix_append infos _).trans (by simpa using this)
        | String v =>
          have := ih (i + 1) count rest (infos ++ [CpInfo.String v]) res h
          exact (List.prefix_append infos _).trans (by simpa using this)
        | FieldRef a b =>
          have := ih (i + 1) count rest (infos ++ [CpInfo.FieldRef a b]) res h
          exact (List.prefix_append infos _).trans (by simpa using this)
        | MethodRef a b =>
          have := ih (i + 1) count rest (infos ++ [CpInfo.MethodRef a b]) res h
          exact (List.prefix_append infos _).trans (by simpa using this)
        | InterfaceMethodRef a b =>
          have := ih (i + 1) count rest (infos ++ [CpInfo.InterfaceMethodRef a b]) res h
          exact (List.prefix_append infos _).trans (by simpa using this)
        | NameAndType a b =>
          have := ih (i + 1) count rest (infos ++ [CpInfo.NameAndType a b]) res h
          exact (List.prefix_append infos _).trans (by simpa using this)
        | MethodHandle a b =>
          have := ih (i + 1) count rest (infos ++ [CpInfo.MethodHandle a b]) res h
          exact (List.prefix_append infos _).trans (by simpa using this)
        | MethodType a =>
          have := ih (i + 1) count rest (infos ++ [CpInfo.MethodType a]) res h
          exact (List.prefix_append infos _).trans (by simpa using this)
        | InvokeDynamic a b =>
          have := ih (i + 1) count rest (infos ++ [CpInfo.InvokeDynamic a b]) res h
          exact (List.prefix_append infos _).trans (by simpa using this)

end Pool

/-- C7 counterexample: the claim speaks of pools containing double constants,
but `CpInfo::new` has no case for the double tag (6) — `CpInfo` has no double
variant at all — so a pool holding an integer followed by a double constant
fails to decode instead of placing later entries at their original indices. -/
theorem C7_double_tag_fails_to_parse :
    Pool.ConstantPool.new [3, 0, 0, 0, 42, 6, 64, 28, 0, 0, 0, 0, 0, 0] 5
      = Except.error "invalid constant pool info tag" := by
  decide

/-- C7 amended: decoding is 1-indexed with the reserved entry at index 0 (a
prefix of every successful decode, first conjunct), and a long constant
occupies two slots — a reserved filler follows it — so in a pool holding
integer, long and float constants every entry sits at its original
class-file index and the reserved slot after the long survives iteration;
double constants are unsupported (their tag fails the parse). -/
theorem C7_one_indexed_reserved_and_long_two_slots :
    (∀ (bytes : List Nat) (count : Nat) (res : List Pool.CpInfo),
        Pool.ConstantPool.new bytes count = Except.ok res →
        res.get? 0 = some Pool.CpInfo.Reserved)
    ∧ Pool.ConstantPool.new
        [3, 0, 0, 0, 42, 5, 0, 0, 0, 0, 0, 0, 0, 7, 4, 64, 73, 15, 219] 5
      = Except.ok [Pool.CpInfo.Reserved, Pool.CpInfo.Integer 42, Pool.CpInfo.Long 7,
                   Pool.CpInfo.Reserved, Pool.CpInfo.Float 1078530011]
    ∧ [Pool.CpInfo.Reserved, Pool.CpInfo.Integer 42, Pool.CpInfo.Long 7,
       Pool.CpInfo.Reserved, Pool.CpInfo.Float 1078530011].get? 3
      = some Pool.CpInfo.Reserved := by
  refine ⟨?_, by decide, by decide⟩
  intro bytes count res h
  unfold Pool.ConstantPool.new at h
  have hp := Pool.cpLoop_prefix _ _ _ _ _ _ h
  obtain ⟨t, ht⟩ := hp
  rw [← ht]
  rfl

/-- C7 witness: the general reserved-slot fact of the amended theorem applied
to the concrete fixture pool. -/
theorem C7_reserved_slot_witness :
    [Pool.CpInfo.Reserved, Pool.CpInfo.Integer 42, Pool.CpInfo.Long 7,
     Pool.CpInfo.Reserved, Pool.CpInfo.Float 1078530011].get? 0
      = some Pool.CpInfo.Reserved :=
  C7_one_indexed_reserved_and_long_two_slots.1
    [3, 0, 0, 0, 42, 5, 0, 0, 0, 0, 0, 0, 0, 7, 4, 64, 73, 15, 219] 5
    [Pool.CpInfo.Reserved, Pool.CpInfo.Integer 42, Pool.CpInfo.Long 7,
     Pool.CpInfo.Reserved, Pool.CpInfo.Float 1078530011] (by decide)

/-! ## Class-identifier parsing (`src/common/src/lib.rs` lines 39-119 and
`ClassIdentifier::with_slashes` from `src/jvm/src/lib.rs` lines 1149-1160) -/

namespace Ident

/-- Mirrors `str::replace("/", ".")`. -/
def dotSlashes (raw : List Char) : List Char :=
  raw.map fun c => if c = '/' then '.' else c

/-- Mirrors `str::replace(";", "")`. -/
def dropSemis (raw : List Char) : List Char :=
  raw.filter fun c => c ≠ ';'

/-- Mirrors `chars().skip_while(|c| *c == 'L' || *c == '[')`. -/
def stripLBrack (raw : List Char) : List Char :=
  raw.dropWhile fun c => c = 'L' ∨ c = '['

/-- Mirrors Rust `str::split('.')`: always at least one part, empty parts
kept. -/
def splitDot : List Char → List (List Char)
  | [] => [[]]
  | c :: cs =>
    match splitDot cs with
    | [] => [[]]
    | p :: ps => if c = '.' then [] :: p :: ps else (c :: p) :: ps

/-- Joins parts with a separator character (`Vec::join`). -/
def joinSep (sep : Char) : List (List Char) → List Char
  | [] => []
  | [p] => p
  | p :: ps => p ++ sep :: joinSep sep ps

/-- Mirrors `common::ClassIdentifier::parse` (common/src/lib.rs lines
39-106): slashes become dots, semicolons are deleted, every leading `L` or
`[` is skipped, a lone primitive letter maps to its boxed wrapper, and
otherwise the last dot-separated segment is the name and the rest the
package.  The source's only error path (`parts.last()` on an empty vector)
is unreachable because `split` always yields at least one part, so the
function is total here. -/
def parse (raw : List Char) : ClassIdentifier :=
  let raw2 := stripLBrack (dropSemis (dotSlashes raw))
  if raw2 = ['B'] then { package := "java.lang".data, name := "Byte".data }
  else if raw2 = ['C'] then { package := "java.lang".data, name := "Character".data }
  else if raw2 = ['D'] then { package := "java.lang".data, name := "Double".data }
  else if raw2 = ['F'] then { package := "java.lang".data, name := "Float".data }
  else if raw2 = ['I'] then { package := "java.lang".data, name := "Integer".data }
  else if raw2 = ['J'] then { package := "java.lang".data, name := "Long".data }
  else if raw2 = ['S'] then { package := "java.lang".data, name := "Short".data }
  else if raw2 = ['Z'] then { package := "java.lang".data, name := "Boolean".data }
  else
    let parts := splitDot raw2
    { package := joinSep '.' parts.dropLast, name := (parts.getLast?).getD [] }

/-- Mirrors `ClassIdentifier::with_slashes` (jvm lib.rs lines 1149-1160):
the package segments joined with '/' followed by the name; an empty package
contributes nothing. -/
def with_slashes (ci : ClassIdentifier) : List Char :=
  if ci.package = [] then ci.name
  else (ci.package.map fun c => if c = '.' then '/' else c) ++ '/' :: ci.name

/-- The split always yields at least one part. -/
theorem splitDot_ne_nil (l : List Char) : splitDot l ≠ [] := by
  cases l with
  | nil => simp [splitDot]
  | cons c cs =>
    simp only [splitDot]
    cases splitDot cs with
    | nil => simp
    | cons p ps =>
      by_cases h : c = '.'
      · simp [h]
      · simp [h]

/-- Splitting a dot-free string yields the string as the only part. -/
theorem splitDot_no_dot {p : List Char} (h : ∀ c ∈ p, c ≠ '.') :
    splitDot p = [p] := by
  induction p with
  | nil => rfl
  | cons c cs ih =>
    have hc : c ≠ '.' := h c (by simp)
    have ihh := ih fun d hd => h d (by simp [hd])
    simp [splitDot, ihh, hc]

/-- Splitting past a dot-free prefix peels it off as the first part. -/
theorem splitDot_append_dot {p : List Char} (rest : List Char)
    (h : ∀ c ∈ p, c ≠ '.') : splitDot (p ++ '.' :: rest) = p :: splitDot rest := by
  induction p with
  | nil =>
    simp only [List.nil_append, splitDot]
    cases hs : splitDot rest with
    | nil => exact absurd hs (splitDot_ne_nil rest)
    | cons q qs => simp
  | cons c cs ih =>
    have hc : c ≠ '.' := h c (by simp)
    have ihh := ih fun d hd => h d (by simp [hd])
    simp [splitDot, ihh, hc]

/-- Splitting inverts joining for dot-free parts. -/
theorem splitDot_joinSep : ∀ ps : List (List Char), ps ≠ [] →
    (∀ p ∈ ps, ∀ c ∈ p, c ≠ '.') → splitDot (joinSep '.' ps) = ps := by
  intro ps
  induction ps with
  | nil => intro h; exact absurd rfl h
  | cons p ps ih =>
    intro _ h
    cases ps with
    | nil => exact splitDot_no_dot fun c hc => h p (by simp) c hc
    | cons q qs =>
      have hjoin : joinSep '.' (p :: q :: qs) = p ++ '.' :: joinSep '.' (q :: qs) := rfl
      rw [hjoin, splitDot_append_dot _ fun c hc => h p (by simp) c hc,
        ih (by simp) fun r hr c hc => h r (by simp [hr]) c hc]

/-- Characters of a join are the separator or part characters. -/
theorem mem_joinSep {sep : Char} {c : Char} : ∀ {ps : List (List Char)},
    c ∈ joinSep sep ps → c = sep ∨ ∃ p ∈ ps, c ∈ p := by
  intro ps
  induction ps with
  | nil => intro h; simp [joinSep] at h
  | cons p ps ih =>
    intro h
    cases ps with
    | nil => exact Or.inr ⟨p, by simp, by simpa [joinSep] using h⟩
    | cons q qs =>
      have : c ∈ p ++ sep :: joinSep sep (q :: qs) := h
      rcases List.mem_append.mp this with h1 | h1
      · exact Or.inr ⟨p, by simp, h1⟩
      · rcases List.mem_cons.mp h1 with h2 | h2
        · exact Or.inl h2
        · rcases ih h2 with h3 | ⟨r, hr, hcr⟩
          · exact Or.inl h3
          · exact Or.inr ⟨r, by simp [hr], hcr⟩

/-- Mapping characters fixes a string without slashes. -/
theorem dotSlashes_id {l : List Char} (h : ∀ c ∈ l, c ≠ '/') :
    dotSlashes l = l := by
  induction l with
  | nil => rfl
  | cons c cs ih =>
    have hc : c ≠ '/' := h c (by simp)
    have ihh := ih fun d hd => h d (by simp [hd])
    simp [dotSlashes, hc]
    simpa [dotSlashes] using ihh

/-- Slash-to-dot mapping turns a slash-join into a dot-join when the parts
contain no slashes. -/
theorem dotSlashes_joinSep : ∀ ps : List (List Char),
    (∀ p ∈ ps, ∀ c ∈ p, c ≠ '/') →
    dotSlashes (joinSep '/' ps) = joinSep '.' ps := by
  intro ps
  induction ps with
  | nil => intro _; rfl
  | cons p ps ih =>
    intro h
    cases ps with
    | nil =>
      exact dotSlashes_id fun c hc => h p (by simp) c hc
    | cons q qs =>
      have hp : dotSlashes p = p := dotSlashes_id fun c hc => h p (by simp) c hc
      have ihh := ih fun r hr c hc => h r (by simp [hr]) c hc
      show dotSlashes (p ++ '/' :: joinSep '/' (q :: qs)) = p ++ '.' :: joinSep '.' (q :: qs)
      rw [dotSlashes, List.map_append]
      rw [dotSlashes] at hp ihh
      simp only [List.map_cons, if_pos rfl, if_true]
      rw [hp, ihh]

/-- Dot-to-slash mapping turns a dot-join into a slash-join when the parts
contain no dots. -/
theorem mapSlash_joinSep : ∀ ps : List (List Char),
    (∀ p ∈ ps, ∀ c ∈ p, c ≠ '.') →
    (joinSep '.' ps).map (fun c => if c = '.' then '/' else c) = joinSep '/' ps := by
  intro ps
  induction ps with
  | nil => intro _; rfl
  | cons p ps ih =>
    intro h
    have hp : p.map (fun c => if c = '.' then '/' else c) = p := by
      have : ∀ c ∈ p, (if c = '.' then '/' else c) = c := by
        intro c hc
        simp [h p (by simp) c hc]
      calc p.map (fun c => if c = '.' then '/' else c) = p.map (fun c => c) :=
            List.map_congr_left this
        _ = p := List.map_id p
    cases ps with
    | nil => exact hp
    | cons q qs =>
      have ihh := ih fun r hr c hc => h r (by simp [hr]) c hc
      show (p ++ '.' :: joinSep '.' (q :: qs)).map _ = p ++ '/' :: joinSep '/' (q :: qs)
      rw [List.map_append, hp]
      simp only [List.map_cons, if_pos rfl, if_true]
      rw [ihh]

/-- Filtering semicolons fixes a semicolon-free string. -/
theorem dropSemis_id {l : List Char} (h : ∀ c ∈ l, c ≠ ';') :
    dropSemis l = l := by
  induction l with
  | nil => rfl
  | cons c cs ih =>
    have hc : c ≠ ';' := h c (by simp)
    have ihh := ih fun d hd => h d (by simp [hd])
    simp only [dropSemis] at ihh
    simp only [dropSemis, List.filter_cons]
    rw [if_pos (by simp [hc]), ihh]

/-- Leading array markers are all stripped. -/
theorem stripLBrack_replicate (k : Nat) (l : List Char) :
    stripLBrack (List.replicate k '[' ++ l) = stripLBrack l := by
  induction k with
  | zero => rfl
  | succ k ih => simp [stripLBrack, List.replicate_succ]

/-- The leading `L` of a descriptor is stripped. -/
theorem stripLBrack_cons_L (l : List Char) :
    stripLBrack ('L' :: l) = stripLBrack l := by
  simp [stripLBrack, List.dropWhile_cons]

/-- Joining after appending a last part. -/
theorem joinSep_concat (sep : Char) : ∀ ps : List (List Char), ps ≠ [] →
    ∀ q, joinSep sep (ps ++ [q]) = joinSep sep ps ++ sep :: q := by
  intro ps
  induction ps with
  | nil => intro h; exact absurd rfl h
  | cons p ps ih =>
    intro _ q
    cases ps with
    | nil => rfl
    | cons r rs =>
      show p ++ sep :: joinSep sep ((r :: rs) ++ [q]) = (p ++ sep :: joinSep sep (r :: rs)) ++ sep :: q
      rw [ih (by simp) q]
      simp

/-- Unfolds the join at a cons with a nonempty tail. -/
theorem joinSep_cons_ne (sep : Char) (p : List Char) {ps : List (List Char)}
    (h : ps ≠ []) : joinSep sep (p :: ps) = p ++ sep :: joinSep sep ps := by
  cases ps with
  | nil => exact absurd rfl h
  | cons q qs => rfl

/-- Core correctness of `parse`: when normalizing and stripping the raw
input yields exactly the dotted internal name, the result is the package /
name split of that name. -/
theorem parse_of_clean (pkg : List (List Char)) (name : List Char) (raw : List Char)
    (hchars : ∀ part ∈ pkg ++ [name], ∀ c ∈ part, c ≠ '.')
    (hprim : pkg = [] → name ∉ [['B'], ['C'], ['D'], ['F'], ['I'], ['J'], ['S'], ['Z']])
    (hclean : stripLBrack (dropSemis (dotSlashes raw)) = joinSep '.' (pkg ++ [name])) :
    parse raw = { package := joinSep '.' pkg, name := name } := by
  have hsingle : ∀ ch : Char, ch ≠ '.' →
      joinSep '.' (pkg ++ [name]) = [ch] → pkg = [] ∧ name = [ch] := by
    intro ch hch h
    cases pkg with
    | nil => exact ⟨rfl, by simpa [joinSep] using h⟩
    | cons p ps =>
      rw [List.cons_append, joinSep_cons_ne '.' p (by simp)] at h
      cases p with
      | nil =>
        simp only [List.nil_append, List.cons.injEq] at h
        exact absurd h.1.symm hch
      | cons a as => simp at h
  have hno : ∀ ch : Char, ch ≠ '.' →
      [ch] ∈ [['B'], ['C'], ['D'], ['F'], ['I'], ['J'], ['S'], ['Z']] →
      joinSep '.' (pkg ++ [name]) ≠ [ch] := by
    intro ch hch hchmem h
    obtain ⟨hp, hn⟩ := hsingle ch hch h
    exact hprim hp (hn ▸ hchmem)
  simp only [parse]
  rw [hclean]
  rw [if_neg (hno 'B' (by decide) (by decide)), if_neg (hno 'C' (by decide) (by decide)),
    if_neg (hno 'D' (by decide) (by decide)), if_neg (hno 'F' (by decide) (by decide)),
    if_neg (hno 'I' (by decide) (by decide)), if_neg (hno 'J' (by decide) (by decide)),
    if_neg (hno 'S' (by decide) (by decide)), if_neg (hno 'Z' (by decide) (by decide))]
  rw [splitDot_joinSep (pkg ++ [name]) (by simp) hchars]
  rw [List.dropLast_concat, List.getLast?_concat]
  rfl

theorem dotSlashes_cons (c : Char) (l : List Char) :
    dotSlashes (c :: l) = (if c = '/' then '.' else c) :: dotSlashes l := rfl

theorem dotSlashes_append (l1 l2 : List Char) :
    dotSlashes (l1 ++ l2) = dotSlashes l1 ++ dotSlashes l2 := List.map_append _ l1 l2

theorem dropSemis_cons (c : Char) (l : List Char) :
    dropSemis (c :: l) = if c = ';' then dropSemis l else c :: dropSemis l := by
  by_cases h : c = ';' <;> simp [dropSemis, List.filter_cons, h]

theorem dropSemis_append (l1 l2 : List Char) :
    dropSemis (l1 ++ l2) = dropSemis l1 ++ dropSemis l2 := List.filter_append l1 l2

end Ident

/-- C8 counterexample: the parser strips every leading `L` or `[` before any
other analysis, so the plain internal name `List` (class `List` in the
default package) parses to the identifier `("", "ist")`, whose slash
rendering `ist` does not reconstruct the class-file internal name `List`. -/
theorem C8_leading_L_is_stripped_counterexample :
    Ident.parse "List".data = { package := [], name := "ist".data }
    ∧ Ident.with_slashes (Ident.parse "List".data) = "ist".data
    ∧ Ident.with_slashes (Ident.parse "List".data) ≠ "List".data
    ∧ Ident.parse "LList;".data = { package := [], name := "ist".data } := by
  decide

/-- C8 amended: for every class whose dotted internal name does not begin
with `L` or `[` (formalized: stripping leading `L`/`[` fixes it), whose
package/name segments avoid the separator characters, and which is not a
lone primitive letter, the slashed, dotted, `L…;` and `[`-array forms all
parse to the same (package, name) identifier, and rendering that identifier
with slashes reconstructs the class-file internal name.  All eight primitive
letters `B C D F I J S Z` map to their boxed `java.lang` wrappers (with the
array form `[I` included); names beginning with `L` or `[` instead have
those leading characters stripped (see the counterexample). -/
theorem C8_forms_agree_and_render_roundtrip
    (pkg : List (List Char)) (name : List Char)
    (hchars : ∀ part ∈ pkg ++ [name], ∀ c ∈ part, c ≠ '.' ∧ c ≠ '/' ∧ c ≠ ';')
    (hhead : Ident.stripLBrack (Ident.joinSep '.' (pkg ++ [name]))
        = Ident.joinSep '.' (pkg ++ [name]))
    (hprim : pkg = [] → name ∉ [['B'], ['C'], ['D'], ['F'], ['I'], ['J'], ['S'], ['Z']])
    (hne : ∀ part ∈ pkg, part ≠ []) :
    (Ident.parse (Ident.joinSep '/' (pkg ++ [name]))
        = { package := Ident.joinSep '.' pkg, name := name })
    ∧ (Ident.parse (Ident.joinSep '.' (pkg ++ [name]))
        = { package := Ident.joinSep '.' pkg, name := name })
    ∧ (Ident.parse ('L' :: Ident.joinSep '/' (pkg ++ [name]) ++ [';'])
        = { package := Ident.joinSep '.' pkg, name := name })
    ∧ (∀ k : Nat, Ident.parse
          (List.replicate k '[' ++ ('L' :: Ident.joinSep '/' (pkg ++ [name]) ++ [';']))
        = { package := Ident.joinSep '.' pkg, name := name })
    ∧ Ident.with_slashes { package := Ident.joinSep '.' pkg, name := name }
        = Ident.joinSep '/' (pkg ++ [name])
    ∧ Ident.parse ['B'] = { package := "java.lang".data, name := "Byte".data }
    ∧ Ident.parse ['C'] = { package := "java.lang".data, name := "Character".data }
    ∧ Ident.parse ['D'] = { package := "java.lang".data, name := "Double".data }
    ∧ Ident.parse ['F'] = { package := "java.lang".data, name := "Float".data }
    ∧ Ident.parse ['I'] = { package := "java.lang".data, name := "Integer".data }
    ∧ Ident.parse ['J'] = { package := "java.lang".data, name := "Long".data }
    ∧ Ident.parse ['S'] = { package := "java.lang".data, name := "Short".data }
    ∧ Ident.parse ['Z'] = { package := "java.lang".data, name := "Boolean".data }
    ∧ Ident.parse ['[', 'I'] = { package := "java.lang".data, name := "Integer".data } := by
  have hnodot : ∀ part ∈ pkg ++ [name], ∀ c ∈ part, c ≠ '.' :=
    fun part hp c hc => (hchars part hp c hc).1
  have hnoslashp : ∀ part ∈ pkg ++ [name], ∀ c ∈ part, c ≠ '/' :=
    fun part hp c hc => (hchars part hp c hc).2.1
  have hnoslash : ∀ c ∈ Ident.joinSep '.' (pkg ++ [name]), c ≠ '/' := by
    intro c hc
    rcases Ident.mem_joinSep hc with h1 | ⟨p, hp, hcp⟩
    · subst h1; decide
    · exact hnoslashp p hp c hcp
  have hnosemi : ∀ c ∈ Ident.joinSep '.' (pkg ++ [name]), c ≠ ';' := by
    intro c hc
    rcases Ident.mem_joinSep hc with h1 | ⟨p, hp, hcp⟩
    · subst h1; decide
    · exact (hchars p hp c hcp).2.2
  have hds : Ident.dotSlashes (Ident.joinSep '/' (pkg ++ [name]))
      = Ident.joinSep '.' (pkg ++ [name]) :=
    Ident.dotSlashes_joinSep (pkg ++ [name]) hnoslashp
  have hclean_dotted :
      Ident.stripLBrack (Ident.dropSemis (Ident.dotSlashes (Ident.joinSep '.' (pkg ++ [name]))))
        = Ident.joinSep '.' (pkg ++ [name]) := by
    rw [Ident.dotSlashes_id hnoslash, Ident.dropSemis_id hnosemi, hhead]
  have hclean_slashed :
      Ident.stripLBrack (Ident.dropSemis (Ident.dotSlashes (Ident.joinSep '/' (pkg ++ [name]))))
        = Ident.joinSep '.' (pkg ++ [name]) := by
    rw [hds, Ident.dropSemis_id hnosemi, hhead]
  have hclean_L :
      Ident.stripLBrack (Ident.dropSemis (Ident.dotSlashes
          ('L' :: Ident.joinSep '/' (pkg ++ [name]) ++ [';'])))
        = Ident.joinSep '.' (pkg ++ [name]) := by
    rw [List.cons_append, Ident.dotSlashes_cons, Ident.dotSlashes_append, hds]
    rw [if_neg (by decide)]
    rw [Ident.dropSemis_cons, if_neg (by decide)]
    rw [Ident.dropSemis_append, Ident.dropSemis_id hnosemi]
    rw [show Ident.dropSemis (Ident.dotSlashes [';']) = [] from rfl]
    rw [List.append_nil, Ident.stripLBrack_cons_L, hhead]
  have hclean_arr : ∀ k : Nat,
      Ident.stripLBrack (Ident.dropSemis (Ident.dotSlashes
          (List.replicate k '[' ++ ('L' :: Ident.joinSep '/' (pkg ++ [name]) ++ [';']))))
        = Ident.joinSep '.' (pkg ++ [name]) := by
    intro k
    rw [Ident.dotSlashes_append, Ident.dropSemis_append]
    rw [Ident.dotSlashes_id (l := List.replicate k '[') ?hs1,
      Ident.dropSemis_id (l := List.replicate k '[') ?hs2]
    case hs1 =>
      intro c hc
      rw [List.eq_of_mem_replicate hc]
      decide
    case hs2 =>
      intro c hc
      rw [List.eq_of_mem_replicate hc]
      decide
    rw [Ident.stripLBrack_replicate]
    rw [List.cons_append, Ident.dotSlashes_cons, Ident.dotSlashes_append, hds]
    rw [if_neg (by decide)]
    rw [Ident.dropSemis_cons, if_neg (by decide)]
    rw [Ident.dropSemis_append, Ident.dropSemis_id hnosemi]
    rw [show Ident.dropSemis (Ident.dotSlashes [';']) = [] from rfl]
    rw [List.append_nil, Ident.stripLBrack_cons_L, hhead]
  have hrender : Ident.with_slashes { package := Ident.joinSep '.' pkg, name := name }
      = Ident.joinSep '/' (pkg ++ [name]) := by
    cases pkg with
    | nil => rfl
    | cons p ps =>
      have hpne : Ident.joinSep '.' (p :: ps) ≠ [] := by
        cases ps with
        | nil => simpa [Ident.joinSep] using hne p (by simp)
        | cons q qs =>
          rw [Ident.joinSep_cons_ne '.' p (by simp)]
          cases p <;> simp
      unfold Ident.with_slashes
      rw [if_neg hpne]
      rw [show ({ package := Ident.joinSep '.' (p :: ps), name := name } :
          ClassIdentifier).package = Ident.joinSep '.' (p :: ps) from rfl]
      rw [Ident.mapSlash_joinSep (p :: ps)
        (fun r hr c hc => hnodot r (List.mem_append_left _ hr) c hc)]
      rw [Ident.joinSep_concat '/' (p :: ps) (by simp) name]
  exact ⟨Ident.parse_of_clean pkg name _ hnodot hprim hclean_slashed,
    Ident.parse_of_clean pkg name _ hnodot hprim hclean_dotted,
    Ident.parse_of_clean pkg name _ hnodot hprim hclean_L,
    fun k => Ident.parse_of_clean pkg name _ hnodot hprim (hclean_arr k),
    hrender, by decide, by decide, by decide, by decide, by decide, by decide,
    by decide, by decide, by decide⟩

/-- C8 witness: the amended theorem applied to `java.lang.System`, whose
slashed form parses to the expected identifier. -/
theorem C8_forms_witness :
    Ident.parse (Ident.joinSep '/' (["java".data, "lang".data] ++ ["System".data]))
      = { package := Ident.joinSep '.' ["java".data, "lang".data],
          name := "System".data } :=
  (C8_forms_agree_and_render_roundtrip ["java".data, "lang".data] "System".data
    (by decide) (by decide) (by decide) (by decide)).1

/-! ## Theorems for claims C1 and C6 -/

/-! ## Theorems for claims C1 and C6 -/

/-- C1: the claim says an owner's `exit` keeps the monitor in the table, with
owner and remaining count intact, while the entry count is positive, and that
the monitor is removed exactly when the count reaches zero.  The code
contradicts this: in `thread/monitor.rs` the `remove` is unconditional, so a
thread that entered twice loses the monitor after a single exit (and the
second exit fails with "no monitor found"); in the `monitor.rs` variant the
monitor is never removed, so after a full release a second thread's enter
still returns `false`. -/
theorem C1_owner_exit_removes_monitor_with_positive_count :
    (ThreadMonitors.exit_object_monitor
        (ThreadMonitors.enter_object_monitor
          (ThreadMonitors.enter_object_monitor ThreadMonitors.empty 0 1).2 0 1).2 0 1
      = Except.ok ThreadMonitors.empty)
    ∧ (ThreadMonitors.exit_object_monitor ThreadMonitors.empty 0 1
        = Except.error "no monitor found")
    ∧ (JvmMonitors.exit_object_monitor
        (JvmMonitors.enter_object_monitor JvmMonitors.empty 0 1).2 0 1
      = Except.ok { object_monitors := [(0, { entry_count := 0, owner := none })] })
    ∧ ((JvmMonitors.enter_object_monitor
        { object_monitors := [(0, { entry_count := 0, owner := none })] } 0 2).1 = false) := by
  decide

/-- C2: the claim says every control-transfer opcode gets no PC adjustment
from the loop after its handler has set the PC, so a not-taken conditional
branch leaves the PC exactly 3 bytes past the opcode.  The exclusion list in
`JvmThread::execute` omits `IfAcmpeq`: its handler sets the PC (3 on
not-taken, the branch offset on taken) and the loop then adds the byte
length again, leaving the PC 6 past the opcode (first conjunct; the claim
requires 13, the code yields 16).  `IfAcmpne` and, in this loop, `Iflt`
behave as claimed (conjuncts 2-3), but the older `Jvm::execute` exclusion
list also omits `Iflt` and `Ifgt`, double-advancing both (conjuncts 4-5).
Non-branch opcodes advance by exactly their length (last conjunct). -/
theorem C2_if_acmpeq_pc_double_advanced :
    Interp.stepThread (Interp.Instruction.IfAcmpeq 20)
        { pc := 10, operands := [FrameValue.Reference ReferenceValue.Null,
                                 FrameValue.Reference (ReferenceValue.HeapItem 0)] }
      = Except.ok { pc := 16, operands := [] }
    ∧ Interp.stepThread (Interp.Instruction.IfAcmpne 20)
        { pc := 10, operands := [FrameValue.Reference ReferenceValue.Null,
                                 FrameValue.Reference (ReferenceValue.HeapItem 0)] }
      = Except.ok { pc := 30, operands := [] }
    ∧ Interp.stepThread (Interp.Instruction.Iflt 20)
        { pc := 10, operands := [FrameValue.Int 5] }
      = Except.ok { pc := 13, operands := [] }
    ∧ Interp.stepJvm (Interp.Instruction.Iflt 20)
        { pc := 10, operands := [FrameValue.Int 5] }
      = Except.ok { pc := 16, operands := [] }
    ∧ Interp.stepJvm (Interp.Instruction.Ifgt 20)
        { pc := 10, operands := [FrameValue.Int 5] }
      = Except.ok { pc := 33, operands := [] }
    ∧ Interp.stepThread (Interp.Instruction.Iconst 7) { pc := 10, operands := [] }
      = Except.ok { pc := 11, operands := [FrameValue.Int 7] } := by
  decide

/-- Concrete two-class system with mutually recursive initialization
dependencies, used by the initialization witnesses: class 0 triggers class 1
from its `<clinit>`; class 1 has super class 0 and also triggers class 0. -/
def defsEx : Nat → Init.ClassDef := fun i =>
  if i = 0 then
    { superC := none, clinitTriggers := [1],
      staticInit := [("X", FieldValue.Integer 7)] }
  else if i = 1 then
    { superC := some 0, clinitTriggers := [0], staticInit := [] }
  else
    { superC := none, clinitTriggers := [], staticInit := [] }

/-- C3: `initialize` is idempotent and cycle-safe.  First conjunct: when the
class table holds the id with `initialized` or `being_initialized` set, the
call returns at once with the table unchanged.  Second conjunct: otherwise
the computation is exactly — insert the fresh record (with
`being_initialized = true`, `initialized = false`, and the computed static
fields) and only then run the super-class and `<clinit>`-triggered
initializations on the already-extended table, marking `initialized` as the
final step.  Third conjunct: a fresh class that completes initialization
ends up with `initialized = true`. -/
theorem C3_initialize_guard_and_insertion_order
    (defs : Nat → Init.ClassDef) (fuel id : Nat) (σ : Init.St) :
    (∀ c, lookupA σ id = some c → (c.initialized || c.being_initialized) = true →
      Init.initializeClass defs (fuel + 1) id σ = some σ)
    ∧ (Init.flagged σ id = false →
        Init.initializeClass defs (fuel + 1) id σ
          = (match Init.initMany defs fuel (Init.depsOf (defs id))
                (setA σ id (Init.freshRecord (defs id))) with
             | some σ2 => Init.markInit σ2 id
             | none => none)
        ∧ lookupA (setA σ id (Init.freshRecord (defs id))) id
            = some (Init.freshRecord (defs id))
        ∧ (Init.freshRecord (defs id)).being_initialized = true
        ∧ (Init.freshRecord (defs id)).initialized = false
        ∧ (Init.freshRecord (defs id)).statics = (defs id).staticInit)
    ∧ (∀ σ', Init.flagged σ id = false →
        Init.initializeClass defs (fuel + 1) id σ = some σ' →
        Init.isInitialized σ' id = true) := by
  refine ⟨?_, ?_, ?_⟩
  · intro c hc hflags
    have hf : Init.flagged σ id = true := by
      unfold Init.flagged
      rw [hc]
      exact hflags
    simp [Init.initializeClass, hf]
  · intro hf
    refine ⟨?_, lookupA_setA_self _ _ _, rfl, rfl, rfl⟩
    simp [Init.initializeClass, hf]
  · intro σ' hf h
    refine Init.initialized_after h ?_
    cases hp : Init.pending σ id
    · rfl
    · rw [Init.pending_imp_flagged hp] at hf
      simp at hf

/-- C3 witness: the guard conjunct applied to a table already holding class 0
mid-initialization — the call returns the table untouched. -/
theorem C3_initialize_witness :
    Init.initializeClass defsEx 3 0
        [(0, { being_initialized := true, initialized := false,
               statics := [("X", FieldValue.Integer 7)] })]
      = some [(0, { being_initialized := true, initialized := false,
                    statics := [("X", FieldValue.Integer 7)] })] :=
  (C3_initialize_guard_and_insertion_order defsEx 2 0 _).1
    { being_initialized := true, initialized := false,
      statics := [("X", FieldValue.Integer 7)] } (by decide) (by decide)

/-- C4: for any dependency graph over `n` classes — mutual recursion and
cycles included — `initialize` with fuel `n + 1` never runs out (both calls
terminate), and after the two calls each class sits in the class table with
`initialized = true` and appears there exactly once. -/
theorem C4_mutual_initialization_terminates
    (n : Nat) (defs : Nat → Init.ClassDef)
    (hw : ∀ i ∈ List.range n, ∀ j ∈ Init.depsOf (defs i), j < n)
    (C C' : Nat) (hC : C < n) (hC' : C' < n) :
    (Init.initializeClass defs (n + 1) C []).isSome = true
    ∧ ∀ σ1, Init.initializeClass defs (n + 1) C [] = some σ1 →
        (Init.isInitialized σ1 C = true
         ∧ Init.countKey σ1 C = 1
         ∧ (Init.initializeClass defs (n + 1) C' σ1).isSome = true
         ∧ ∀ σ2, Init.initializeClass defs (n + 1) C' σ1 = some σ2 →
             (Init.isInitialized σ2 C = true ∧ Init.isInitialized σ2 C' = true
              ∧ Init.countKey σ2 C = 1 ∧ Init.countKey σ2 C' = 1)) := by
  have hw' : ∀ i, i < n → ∀ j ∈ Init.depsOf (defs i), j < n :=
    fun i hi => hw i (List.mem_range.mpr hi)
  have hadeq := Init.init_adequate defs n hw'
  have hu0 : Init.unflagged n ([] : Init.St) < n + 1 := by
    rw [Init.unflagged_empty]; omega
  refine ⟨(hadeq (n + 1)).1 C [] hC hu0, ?_⟩
  intro σ1 h1
  have hpres1 := (Init.init_preserved defs (n + 1)).1 _ _ _ h1
  have hC_init : Init.isInitialized σ1 C = true := Init.initialized_after h1 rfl
  have hgood1 : Init.goodKeys σ1 := hpres1.2.2.2 (by simp [Init.goodKeys, Init.keys])
  obtain ⟨c1, hc1⟩ := Init.flagged_lookup (Init.isInitialized_imp_flagged hC_init)
  have hu1 : Init.unflagged n σ1 < n + 1 := by
    have hle := Init.unflagged_le_of_mono (n := n) hpres1.1
    rw [Init.unflagged_empty] at hle
    omega
  refine ⟨hC_init, Init.countKey_eq_one hgood1 hc1,
    (hadeq (n + 1)).1 C' σ1 hC' hu1, ?_⟩
  intro σ2 h2
  have hpres2 := (Init.init_preserved defs (n + 1)).1 _ _ _ h2
  have hpend : Init.pending σ1 C' = false := by
    cases hp : Init.pending σ1 C'
    · rfl
    · have hempty := hpres1.2.2.1 C' hp
      simp [Init.pending, lookupA] at hempty
  have hCp_init : Init.isInitialized σ2 C' = true := Init.initialized_after h2 hpend
  have hC_init2 : Init.isInitialized σ2 C = true := hpres2.2.1 C hC_init
  have hgood2 : Init.goodKeys σ2 := hpres2.2.2.2 hgood1
  obtain ⟨c2, hc2⟩ := Init.flagged_lookup (Init.isInitialized_imp_flagged hC_init2)
  obtain ⟨c3, hc3⟩ := Init.flagged_lookup (Init.isInitialized_imp_flagged hCp_init)
  exact ⟨hC_init2, hCp_init, Init.countKey_eq_one hgood2 hc2,
    Init.countKey_eq_one hgood2 hc3⟩

/-- C4 witness: the termination conjunct applied to a concrete two-class
system with mutually recursive initialization dependencies. -/
theorem C4_initialization_witness :
    (Init.initializeClass defsEx 3 0 []).isSome = true :=
  (C4_mutual_initialization_terminates 2 defsEx (by decide) 0 1
    (by decide) (by decide)).1

/-- C5: the claim says both `idiv` and `irem` turn a zero divisor into an
ArithmeticException-class error on the error-return path, never performing
the host division.  `irem` does exactly that, but `idiv` has no zero check:
it always performs the host division, which is a Rust panic (a thread abort
outside the error path) when the popped divisor is zero.  With a nonzero
divisor both push quotient and remainder as claimed. -/
theorem C5_idiv_by_zero_panics_instead_of_error :
    Interp.idiv [FrameValue.Int 0, FrameValue.Int 7]
      = Interp.StepResult.panic "attempt to divide by zero"
    ∧ Interp.irem [FrameValue.Int 0, FrameValue.Int 7]
      = Interp.StepResult.err "TODO: ArithmeticException"
    ∧ Interp.idiv [FrameValue.Int 2, FrameValue.Int 7]
      = Interp.StepResult.ok [FrameValue.Int 3]
    ∧ Interp.irem [FrameValue.Int 2, FrameValue.Int 7]
      = Interp.StepResult.ok [FrameValue.Int 1] := by
  decide

/-- C9: the claim says writing a local variable at index `i` stores the value
in slot `i` (plus a `Reserved` marker at `i + 1` for category-2 values),
leaves every other slot unchanged, and that reading a `Reserved` slot is an
error.  The code uses `Vec::insert`, which shifts all later slots to the
right and grows the vector: writing `Int 30` at index 0 of `[Int 10, Int 20]`
leaves slot 1 holding `Int 10` instead of `Int 20`.  Reading a `Reserved`
slot through `Frame::local_variable` succeeds rather than erroring. -/
theorem C9_set_local_variable_inserts_instead_of_replacing :
    StackM.Stack.set_local_variable [FrameValue.Int 10, FrameValue.Int 20] 0 (FrameValue.Int 30)
      = Except.ok [FrameValue.Int 30, FrameValue.Int 10, FrameValue.Int 20]
    ∧ StackM.Stack.set_local_variable [FrameValue.Int 10, FrameValue.Int 20] 0 (FrameValue.Long 5)
      = Except.ok [FrameValue.Long 5, FrameValue.Reserved, FrameValue.Int 10, FrameValue.Int 20]
    ∧ StackM.Frame.local_variable [FrameValue.Long 5, FrameValue.Reserved] 1
      = Except.ok FrameValue.Reserved := by
  decide

/-- C10: `Heap::set_field` silently succeeds without touching the heap when
the id maps to a reference array or a primitive array; it errors on an
unknown id; and on an object it errors when the field is missing and
otherwise replaces exactly the named field, leaving every other field and
every other heap item unchanged. -/
theorem C10_set_field_ignores_arrays_and_replaces_object_fields
    (h : HeapM.Heap) (id : Nat) (name : String) (v : FieldValue) :
    (lookupA h.items id = none →
      HeapM.set_field h id name v = Except.error "unknown object")
    ∧ (∀ oid c vs, lookupA h.items id = some (HeapM.HeapItem.ReferenceArray oid c vs) →
        HeapM.set_field h id name v = Except.ok h)
    ∧ (∀ t vs, lookupA h.items id = some (HeapM.HeapItem.PrimitiveArray t vs) →
        HeapM.set_field h id name v = Except.ok h)
    ∧ (∀ o, lookupA h.items id = some (HeapM.HeapItem.Object o) →
        lookupA o.fields name = none →
        HeapM.set_field h id name v = Except.error "field not found on object")
    ∧ (∀ o f, lookupA h.items id = some (HeapM.HeapItem.Object o) →
        lookupA o.fields name = some f →
        ∃ o2 : HeapM.Object,
          HeapM.set_field h id name v
            = Except.ok { h with items := setA h.items id (HeapM.HeapItem.Object o2) }
          ∧ o2.class_identifier = o.class_identifier
          ∧ lookupA o2.fields name = some { f with value := v }
          ∧ (∀ other, other ≠ name → lookupA o2.fields other = lookupA o.fields other)) := by
  refine ⟨?_, ?_, ?_, ?_, ?_⟩
  · intro hnone
    simp [HeapM.set_field, hnone]
  · intro oid c vs hl
    simp [HeapM.set_field, hl]
  · intro t vs hl
    simp [HeapM.set_field, hl]
  · intro o hl hf
    simp [HeapM.set_field, hl, hf]
  · intro o f hl hf
    refine ⟨{ o with fields := setA o.fields name { f with value := v } }, ?_, rfl, ?_, ?_⟩
    · simp [HeapM.set_field, hl, hf]
    · simpa using lookupA_setA_self o.fields name { f with value := v }
    · intro other hother
      simpa using lookupA_setA_ne o.fields name other { f with value := v } hother

/-- C10 witness: the theorem applied to a concrete two-item heap (a primitive
array at id 0 and an object with field "x" at id 1). -/
theorem C10_set_field_witness :
    HeapM.set_field
        { current_id := 2,
          items := [(0, HeapM.HeapItem.PrimitiveArray HeapM.PrimitiveArrayType.Int []),
                    (1, HeapM.HeapItem.Object
                      { class_identifier := { package := [], name := ['A'] },
                        fields := [("x", { offset := 0, value := FieldValue.Integer 1 })] })] }
        0 "x" (FieldValue.Integer 9)
      = Except.ok
        { current_id := 2,
          items := [(0, HeapM.HeapItem.PrimitiveArray HeapM.PrimitiveArrayType.Int []),
                    (1, HeapM.HeapItem.Object
                      { class_identifier := { package := [], name := ['A'] },
                        fields := [("x", { offset := 0, value := FieldValue.Integer 1 })] })] } :=
  (C10_set_field_ignores_arrays_and_replaces_object_fields
      { current_id := 2,
        items := [(0, HeapM.HeapItem.PrimitiveArray HeapM.PrimitiveArrayType.Int []),
                  (1, HeapM.HeapItem.Object
                    { class_identifier := { package := [], name := ['A'] },
                      fields := [("x", { offset := 0, value := FieldValue.Integer 1 })] })] }
      0 "x" (FieldValue.Integer 9)).2.2.1 HeapM.PrimitiveArrayType.Int [] (by decide)

/-- C6: the claim says `load` accepts exactly class-file version 61.0 and
fails for every other (major, minor) pair.  `check_version` uses `&&` instead
of `||`: it accepts any file whose major version is 61 or whose minor version
is 0, e.g. version 60.0 and version 61.5 both pass. -/
theorem C6_check_version_accepts_other_versions :
    Loader.check_version 60 0 = Except.ok ()
    ∧ Loader.check_version 61 5 = Except.ok ()
    ∧ Loader.check_version 61 0 = Except.ok ()
    ∧ Loader.check_version 60 2
      = Except.error "unsupported class file version (should throw UnsupportedClassVersionError)" := by
  decide

end Atria
